import Mathlib

/-!
Shallow embedding of the DNS parsing core of the `dns_spider` repository
(`src/protocols/dns/{udp,tcp,doh}.rs`, `src/core/stats.rs`), together with
theorems settling the frozen claims about it.

Modelling conventions:
* Byte slices (`&[u8]`, `Vec<u8>`) are `List Nat` whose elements are byte
  values.  Rust `String`s are modelled by their byte content (`List Nat`);
  `String::from_utf8_lossy` is modelled as the identity on the label bytes,
  which is exact for ASCII data (all data the claims touch is ASCII).
* `u16::from_be_bytes [a, b]` is `a * 256 + b`, `u32::from_be_bytes` likewise;
  bit operations use `&&&`, `|||`, `<<<` on `Nat`.
* The `StatsCounter` (a `HashMap<String, u64>` of counters) is modelled as a
  total function `String → Nat`; `increment` bumps one key.
* The `while` loop of `UdpDnsParser::parse_domain_name` is modelled with an
  explicit step counter (`fuel`); the outer `none` of the result means the
  budget ran out, and `parseDomainName_fuel_sufficient` proves that the budget
  `pdnFuel` used by `parse_domain_name` is never exhausted, which is the
  termination argument for the loop.
* Rust `HashMap` session tables are modelled as association lists in insertion
  order; `Iterator::min_by_key` ("the first of equally minimum elements") is a
  fold keeping the earliest minimum.
-/

namespace DnsSpider

/-- `DnsMessageType` from `src/protocols/dns/mod.rs`. -/
inductive DnsMessageType where
  | Query
  | Response
deriving DecidableEq

/-- `DnsRecordType` from `src/protocols/dns/mod.rs`. -/
inductive DnsRecordType where
  | A
  | AAAA
  | CNAME
  | MX
  | NS
  | PTR
  | SOA
  | SRV
  | TXT
  | Other (value : Nat)
deriving DecidableEq

/-- `impl From<u16> for DnsRecordType` from `src/protocols/dns/mod.rs`. -/
def DnsRecordType.fromNat (value : Nat) : DnsRecordType :=
  if value = 1 then .A
  else if value = 28 then .AAAA
  else if value = 5 then .CNAME
  else if value = 15 then .MX
  else if value = 2 then .NS
  else if value = 12 then .PTR
  else if value = 6 then .SOA
  else if value = 33 then .SRV
  else if value = 16 then .TXT
  else .Other value

/-- `DnsProtocol` from `src/protocols/dns/mod.rs`. -/
inductive DnsProtocol where
  | Udp
  | Tcp
  | Dot
  | Doh
  | Doq
deriving DecidableEq

/-- `DnsQuestion` from `src/protocols/dns/mod.rs` (`class` is a Lean keyword,
renamed `cls`; the `String` field `name` is modelled by its byte content). -/
structure DnsQuestion where
  name : List Nat
  record_type : DnsRecordType
  cls : Nat
deriving DecidableEq

/-- `DnsAnswer` from `src/protocols/dns/mod.rs`. -/
structure DnsAnswer where
  name : List Nat
  record_type : DnsRecordType
  cls : Nat
  ttl : Nat
  data : List Nat
  data_str : List Nat
deriving DecidableEq

/-- `DnsMessage` from `src/protocols/dns/mod.rs`. -/
structure DnsMessage where
  transaction_id : Nat
  message_type : DnsMessageType
  questions : List DnsQuestion
  answers : List DnsAnswer
  timestamp : Nat
  protocol : DnsProtocol
deriving DecidableEq

/-- The counter part of `StatsCounter` from `src/core/stats.rs`, as the total
function from counter names to values (absent keys read as 0, as in `get`). -/
def StatsCounter := String → Nat

/-- `StatsCounter::increment` from `src/core/stats.rs`. -/
def StatsCounter.increment (s : StatsCounter) (key : String) : StatsCounter :=
  fun k => if k = key then s k + 1 else s k

/-- The all-zero counter map (`StatsCounter::new`). -/
def StatsCounter.zero : StatsCounter := fun _ => 0

/-- Byte content of an ASCII string literal. -/
def strBytes (s : String) : List Nat := s.data.map Char.toNat

/-- Indexing `data[i]` of a byte slice (only ever used at positions checked to
be in bounds, so the default value 0 is unreachable). -/
def byteAt (data : List Nat) (i : Nat) : Nat := data.getD i 0

/-- One run of the `while` loop of `UdpDnsParser::parse_domain_name`
(`src/protocols/dns/udp.rs:22-82`), with an explicit iteration budget.
Result `none` means the budget ran out (never happens for the budget used by
`parse_domain_name`, see `parseDomainName_fuel_sufficient`); `some r` is the
function's result, `r = none` being the source's early `return None` and
`r = some (name, next_pos)` the final `Some((name, next_pos))`. -/
def parseDomainNameAux (data : List Nat) :
    Nat → Nat → List Nat → Bool → Nat → Nat → Option (Option (List Nat × Nat))
  | 0, _, _, _, _, _ => none
  | fuel + 1, pos, name, jumped, jumpCount, nextPos =>
    if pos < data.length then
      if (byteAt data pos) &&& 0xC0 = 0xC0 then
        -- compression pointer
        if pos + 1 ≥ data.length then
          some none
        else
          let nextPos' := if !jumped then pos + 2 else nextPos
          let pointer := (((byteAt data pos) &&& 0x3F) <<< 8) ||| byteAt data (pos + 1)
          if jumpCount + 1 > 10 then
            some none
          else
            parseDomainNameAux data fuel pointer name true (jumpCount + 1) nextPos'
      else
        -- ordinary label of length `len`
        let len := byteAt data pos
        if len = 0 then
          some (some (name, if jumped then nextPos else pos + 1))
        else if data.length < pos + 1 + len then
          some none
        else
          parseDomainNameAux data fuel (pos + 1 + len)
            (if name.isEmpty then (data.drop (pos + 1)).take len
             else name ++ 46 :: (data.drop (pos + 1)).take len)
            jumped jumpCount nextPos
    else
      some (some (name, if jumped then nextPos else pos + 1))

/-- Iteration budget that always suffices for `parseDomainNameAux`. -/
def pdnFuel (data : List Nat) : Nat := 12 * (data.length + 1)

/-- `UdpDnsParser::parse_domain_name` (`src/protocols/dns/udp.rs:22-82`).
The fallback `none` for an exhausted budget is dead code by
`parseDomainName_fuel_sufficient`. -/
def parse_domain_name (data : List Nat) (offset : Nat) : Option (List Nat × Nat) :=
  match parseDomainNameAux data (pdnFuel data) offset [] false 0 offset with
  | some r => r
  | none => none

/-- Big-endian `u16` from two bytes at offset `i` (`u16::from_be_bytes`). -/
def be16 (data : List Nat) (i : Nat) : Nat :=
  byteAt data i * 256 + byteAt data (i + 1)

/-- Big-endian `u32` from four bytes at offset `i` (`u32::from_be_bytes`). -/
def be32 (data : List Nat) (i : Nat) : Nat :=
  ((byteAt data i * 256 + byteAt data (i + 1)) * 256 + byteAt data (i + 2)) * 256 +
    byteAt data (i + 3)

/-- Decimal rendering of a number, as string bytes (Rust `format!` `{}`). -/
def decBytes (n : Nat) : List Nat := (Nat.repr n).data.map Char.toNat

/-- Lowercase hexadecimal rendering of a number, as string bytes (Rust
`format!` `{:x}`). -/
def hexBytes (n : Nat) : List Nat := (Nat.toDigits 16 n).map Char.toNat

/-- `UdpDnsParser::parse_question` (`src/protocols/dns/udp.rs:85-106`). -/
def parse_question (data : List Nat) (offset : Nat) : Option (DnsQuestion × Nat) :=
  match parse_domain_name data offset with
  | none => none
  | some (name, off) =>
    if off + 4 > data.length then
      none
    else
      some
        ({ name := name
           record_type := DnsRecordType.fromNat (be16 data off)
           cls := be16 data (off + 2) }, off + 4)

/-- The `data_str` display string computed by `UdpDnsParser::parse_answer`
(`src/protocols/dns/udp.rs:137-166`). -/
def answerDataStr (data : List Nat) (off : Nat) (record_type : Nat)
    (record_data : List Nat) : List Nat :=
  match DnsRecordType.fromNat record_type with
  | .A =>
    if record_data.length = 4 then
      decBytes (byteAt record_data 0) ++ 46 :: decBytes (byteAt record_data 1) ++
        46 :: decBytes (byteAt record_data 2) ++ 46 :: decBytes (byteAt record_data 3)
    else strBytes "Invalid A record"
  | .AAAA =>
    if record_data.length = 16 then
      List.intercalate [58]
        ((List.range 8).map fun i => hexBytes (be16 record_data (i * 2)))
    else strBytes "Invalid AAAA record"
  | .CNAME | .NS | .PTR =>
    match parse_domain_name data (off + 10) with
    | some (domain, _) => domain
    | none => strBytes "Invalid domain name"
  | _ => strBytes "<" ++ decBytes record_data.length ++ strBytes " bytes of data>"

/-- `UdpDnsParser::parse_answer` (`src/protocols/dns/udp.rs:109-179`). -/
def parse_answer (data : List Nat) (offset : Nat) : Option (DnsAnswer × Nat) :=
  match parse_domain_name data offset with
  | none => none
  | some (name, off) =>
    if off + 10 > data.length then
      none
    else
      let record_type := be16 data off
      let data_len := be16 data (off + 8)
      if off + 10 + data_len > data.length then
        none
      else
        let record_data := (data.drop (off + 10)).take data_len
        some
          ({ name := name
             record_type := DnsRecordType.fromNat record_type
             cls := be16 data (off + 2)
             ttl := be32 data (off + 4)
             data := record_data
             data_str := answerDataStr data off record_type record_data },
           off + 10 + data_len)

/-- The question loop of `UdpDnsParser::parse` (`src/protocols/dns/udp.rs:209-217`):
parse `count` questions starting at `offset`; fail if any question fails. -/
def parseQuestions (data : List Nat) : Nat → Nat → Option (List DnsQuestion × Nat)
  | 0, offset => some ([], offset)
  | count + 1, offset =>
    match parse_question data offset with
    | none => none
    | some (q, off') =>
      match parseQuestions data count off' with
      | none => none
      | some (qs, off'') => some (q :: qs, off'')

/-- The answer loop of `UdpDnsParser::parse` (`src/protocols/dns/udp.rs:222-236`):
parse up to `count` answers; on the first failure stop, reporting the answers
collected so far and the flag that a failure occurred. -/
def parseAnswers (data : List Nat) : Nat → Nat → List DnsAnswer × Bool
  | 0, _ => ([], false)
  | count + 1, offset =>
    match parse_answer data offset with
    | none => ([], true)
    | some (a, off') =>
      let rest := parseAnswers data count off'
      (a :: rest.1, rest.2)

/-- `UdpDnsParser::parse` (`src/protocols/dns/udp.rs:183-257`); the parser's
one configuration field is `max_packet_size`.  The source's locals
(`transaction_id = be16 data 0`, `flags = be16 data 2`,
`questions_count = be16 data 4`, `answers_count = be16 data 6`,
`message_type`, and the 0..count loops over questions and answers) are
inlined; the authority and additional counts are read by the source but never
used. -/
def UdpDnsParser.parse (max_packet_size : Nat) (data : List Nat)
    (stats : StatsCounter) : Option DnsMessage × StatsCounter :=
  if data.length < 12 ∨ data.length > max_packet_size then
    (none, stats.increment "dns.udp.invalid_size")
  else
    match parseQuestions data (be16 data 4) 12 with
    | none => (none, stats.increment "dns.udp.parse_question_failed")
    | some (questions, offset) =>
      if (parseAnswers data (be16 data 6) offset).2 ∧ questions.isEmpty then
        (none, stats.increment "dns.udp.parse_failed")
      else
        (some
          { transaction_id := be16 data 0
            message_type :=
              if be16 data 2 &&& 0x8000 ≠ 0 then DnsMessageType.Response
              else DnsMessageType.Query
            questions := questions
            answers := (parseAnswers data (be16 data 6) offset).1
            timestamp := 0
            protocol := DnsProtocol.Udp },
         StatsCounter.increment
           (StatsCounter.increment
             (if (parseAnswers data (be16 data 6) offset).2 then
                stats.increment "dns.udp.parse_answer_failed"
              else stats)
             "dns.udp.parsed")
           (if (if be16 data 2 &&& 0x8000 ≠ 0 then DnsMessageType.Response
                else DnsMessageType.Query) = DnsMessageType.Query then
              "dns.udp.query"
            else "dns.udp.response"))

/-- The 29-byte minimal A query of the spec's scenario 1. -/
def sampleQuery : List Nat :=
  [0x12, 0x34, 0x01, 0x00, 0x00, 0x01, 0x00, 0x00, 0x00, 0x00, 0x00, 0x00,
   0x07, 0x65, 0x78, 0x61, 0x6d, 0x70, 0x6c, 0x65, 0x03, 0x63, 0x6f, 0x6d,
   0x00, 0x00, 0x01, 0x00, 0x01]

/-- The sample query with `ancount = 1` (byte 7 set to 1) but no answer bytes:
the single question parses, the answer record fails (its fixed 10-byte part
lies beyond the slice). -/
def samplePartial : List Nat :=
  [0x12, 0x34, 0x01, 0x00, 0x00, 0x01, 0x00, 0x01, 0x00, 0x00, 0x00, 0x00,
   0x07, 0x65, 0x78, 0x61, 0x6d, 0x70, 0x6c, 0x65, 0x03, 0x63, 0x6f, 0x6d,
   0x00, 0x00, 0x01, 0x00, 0x01]

/-- `TcpSession` from `src/protocols/dns/tcp.rs`. -/
structure TcpSession where
  buffer : List Nat
  last_seen : Nat
deriving DecidableEq

/-- A TCP flow key `(src_ip, dst_ip, src_port, dst_port)`. -/
abbrev FlowKey := Nat × Nat × Nat × Nat

/-- `TcpDnsParser` from `src/protocols/dns/tcp.rs`; the `HashMap` session
table is an association list in insertion order, and the embedded
`udp_parser` (built with the same `max_packet_size`) is represented by the
`max_packet_size` field alone, `UdpDnsParser::parse` being stateless. -/
structure TcpDnsParser where
  tcp_sessions : List (FlowKey × TcpSession)
  max_packet_size : Nat
  max_sessions : Nat
  session_timeout_ms : Nat
  current_time_ms : Nat
deriving DecidableEq

/-- `TcpDnsParser::new`. -/
def TcpDnsParser.new (max_packet_size max_sessions session_timeout_ms : Nat) :
    TcpDnsParser :=
  { tcp_sessions := []
    max_packet_size := max_packet_size
    max_sessions := max_sessions
    session_timeout_ms := session_timeout_ms
    current_time_ms := 0 }

/-- `HashMap` lookup (`entry` hit / indexing) on the association-list table. -/
def lookupSession (l : List (FlowKey × TcpSession)) (k : FlowKey) :
    Option TcpSession :=
  match l.find? (fun e => decide (e.1 = k)) with
  | some e => some e.2
  | none => none

/-- In-place `HashMap` update of the session stored under `k`. -/
def updateSession (l : List (FlowKey × TcpSession)) (k : FlowKey)
    (s : TcpSession) : List (FlowKey × TcpSession) :=
  l.map (fun e => if e.1 = k then (e.1, s) else e)

/-- `HashMap::remove` of key `k`. -/
def removeSession (l : List (FlowKey × TcpSession)) (k : FlowKey) :
    List (FlowKey × TcpSession) :=
  l.filter (fun e => decide (e.1 ≠ k))

/-- `self.tcp_sessions.iter().min_by_key(|(_, s)| s.last_seen).map(|(k, _)| *k)`:
the first entry (in table order) with minimal `last_seen`, if any. -/
def oldestKey (l : List (FlowKey × TcpSession)) : Option FlowKey :=
  (l.foldl
    (fun acc e =>
      match acc with
      | none => some e
      | some m => if e.2.last_seen < m.2.last_seen then some e else some m)
    none).map Prod.fst

/-- `TcpDnsParser::cleanup_sessions` (`src/protocols/dns/tcp.rs:47-50`):
retain sessions with `last_seen > current_time_ms.saturating_sub(timeout)`. -/
def TcpDnsParser.cleanup_sessions (p : TcpDnsParser) : TcpDnsParser :=
  { p with
    tcp_sessions :=
      p.tcp_sessions.filter
        (fun e => decide (p.current_time_ms - p.session_timeout_ms < e.2.last_seen)) }

/-- The `while session.buffer.len() >= 2` extraction loop of
`TcpDnsParser::process_tcp_segment` (`src/protocols/dns/tcp.rs:103-125`),
with an explicit iteration budget (each iteration consumes at least two
bytes, so `buffer.length` iterations always suffice, see
`drainBufferAux_irrel`): extract length-prefixed messages, parse each with
the inner UDP parser, retag successes with `protocol = Tcp`, drain the
consumed bytes. -/
def drainBufferAux (max_packet_size : Nat) :
    Nat → List Nat → StatsCounter → List DnsMessage × List Nat × StatsCounter
  | 0, buffer, stats => ([], buffer, stats)
  | fuel + 1, buffer, stats =>
    if 2 ≤ buffer.length ∧ be16 buffer 0 + 2 ≤ buffer.length then
      let step := UdpDnsParser.parse max_packet_size
        ((buffer.drop 2).take (be16 buffer 0)) stats
      let rest := drainBufferAux max_packet_size fuel
        (buffer.drop (be16 buffer 0 + 2)) step.2
      (match step.1 with
       | some message => { message with protocol := DnsProtocol.Tcp } :: rest.1
       | none => rest.1,
       rest.2.1, rest.2.2)
    else
      ([], buffer, stats)

/-- The extraction loop, run with the always-sufficient budget. -/
def drainBuffer (max_packet_size : Nat) (buffer : List Nat)
    (stats : StatsCounter) : List DnsMessage × List Nat × StatsCounter :=
  drainBufferAux max_packet_size buffer.length buffer stats

/-- `TcpDnsParser::process_tcp_segment` (`src/protocols/dns/tcp.rs:53-128`):
get or create the session (evicting on a full table only when the key is
new), update `last_seen`, append the segment, clear on overflow, otherwise
run the extraction loop. -/
def TcpDnsParser.process_tcp_segment (p : TcpDnsParser)
    (src_ip dst_ip src_port dst_port : Nat) (data : List Nat)
    (stats : StatsCounter) : List DnsMessage × TcpDnsParser × StatsCounter :=
  let session_id : FlowKey := (src_ip, dst_ip, src_port, dst_port)
  let p1 :=
    match lookupSession p.tcp_sessions session_id with
    | some _ => p
    | none =>
      let p' :=
        if p.tcp_sessions.length ≥ p.max_sessions then
          let pc := p.cleanup_sessions
          if pc.tcp_sessions.length ≥ pc.max_sessions then
            match oldestKey pc.tcp_sessions with
            | some key => { pc with tcp_sessions := removeSession pc.tcp_sessions key }
            | none => pc
          else pc
        else p
      { p' with
        tcp_sessions :=
          p'.tcp_sessions ++
            [(session_id, TcpSession.mk [] p.current_time_ms)] }
  let buffer :=
    (match lookupSession p1.tcp_sessions session_id with
     | some session => session.buffer
     | none => []) ++ data
  if buffer.length > p.max_packet_size then
    ([],
     { p1 with
       tcp_sessions :=
         updateSession p1.tcp_sessions session_id
           { buffer := [], last_seen := p.current_time_ms } },
     stats.increment "dns.tcp.buffer_overflow")
  else
    ((drainBuffer p.max_packet_size buffer stats).1,
     { p1 with
       tcp_sessions :=
         updateSession p1.tcp_sessions session_id
           { buffer := (drainBuffer p.max_packet_size buffer stats).2.1
             last_seen := p.current_time_ms } },
     (drainBuffer p.max_packet_size buffer stats).2.2)

/-- The per-session effect of one `process_tcp_segment` call on an existing
buffer: append the segment, clear on overflow, otherwise drain (lines 92-125
of `src/protocols/dns/tcp.rs`). -/
def sessionStep (max_packet_size : Nat) (buffer seg : List Nat)
    (stats : StatsCounter) : List DnsMessage × List Nat × StatsCounter :=
  if (buffer ++ seg).length > max_packet_size then
    ([], [], stats.increment "dns.tcp.buffer_overflow")
  else
    drainBuffer max_packet_size (buffer ++ seg) stats

/-- Buffer evolution of `sessionStep` (independent of the counter state). -/
def nextBuffer (max_packet_size : Nat) (buf seg : List Nat) : List Nat :=
  (sessionStep max_packet_size buf seg StatsCounter.zero).2.1

/-- Delivering a list of TCP segments of one flow to the reassembler in
order, concatenating the emitted messages. -/
def feedSegments (src_ip dst_ip src_port dst_port : Nat) :
    List (List Nat) → TcpDnsParser → StatsCounter →
      List DnsMessage × TcpDnsParser × StatsCounter
  | [], p, stats => ([], p, stats)
  | seg :: rest, p, stats =>
    let step := p.process_tcp_segment src_ip dst_ip src_port dst_port seg stats
    let next := feedSegments src_ip dst_ip src_port dst_port rest step.2.1 step.2.2
    (step.1 ++ next.1, next.2.1, next.2.2)

/-- Delivering a list of segments at the buffer level (`sessionStep` chained). -/
def feedBufs (max_packet_size : Nat) :
    List (List Nat) → List Nat → StatsCounter →
      List DnsMessage × List Nat × StatsCounter
  | [], buf, stats => ([], buf, stats)
  | seg :: rest, buf, stats =>
    let step := sessionStep max_packet_size buf seg stats
    let next := feedBufs max_packet_size rest step.2.1 step.2.2
    (step.1 ++ next.1, next.2.1, next.2.2)

/-- The 2-byte big-endian length prefix framing of one DNS message on TCP
(RFC 7766), as read back by the extraction loop. -/
def encOne (m : List Nat) : List Nat := m.length / 256 :: m.length % 256 :: m

/-- A series of length-prefixed DNS messages, concatenated. -/
def encode (msgs : List (List Nat)) : List Nat := (msgs.map encOne).flatten

/-- A buffer holding no complete length-prefixed frame (the extraction loop
leaves it untouched). -/
def incompleteFrame (buf : List Nat) : Prop :=
  buf.length < 2 ∨ buf.length < be16 buf 0 + 2

instance (buf : List Nat) : Decidable (incompleteFrame buf) := by
  unfold incompleteFrame
  infer_instance

/-- The pending bytes never exceed `max_packet_size`: at every step the
buffer after appending the incoming segment stays within bounds. -/
def noOverflowB (max_packet_size : Nat) : List (List Nat) → List Nat → Bool
  | [], _ => true
  | seg :: rest, buf =>
    decide ((buf ++ seg).length ≤ max_packet_size) &&
      noOverflowB max_packet_size rest (nextBuffer max_packet_size buf seg)

/-- The message the reassembler is expected to emit for the DNS payload `m`:
the Wire Decoder's result retagged with `protocol = Tcp`. -/
def parsedTcp (max_packet_size : Nat) (m : List Nat) : Option DnsMessage :=
  ((UdpDnsParser.parse max_packet_size m StatsCounter.zero).1).map
    (fun x => { x with protocol := DnsProtocol.Tcp })

/-- `DohParser::extract_dns_data` (`src/protocols/dns/doh.rs:66-76`): the
simplified extractor returns the input bytes unchanged. -/
def DohParser.extract_dns_data (data : List Nat) : Option (List Nat) :=
  some data

/-- `DohParser::process_http_data` (`src/protocols/dns/doh.rs:46-63`); the
embedded `udp_parser` is represented by its `max_packet_size`, and the unused
`session_id` argument is kept for fidelity. -/
def DohParser.process_http_data (max_packet_size : Nat) (session_id : Nat)
    (data : List Nat) (stats : StatsCounter) :
    List DnsMessage × StatsCounter :=
  match DohParser.extract_dns_data data with
  | some dns_data =>
    match UdpDnsParser.parse max_packet_size dns_data stats with
    | (some message, stats') => ([message], stats')
    | (none, stats') => ([], stats')
  | none => ([], stats)

/-- Position `p` of `data` holds a compression pointer (high two bits `11`,
second byte inside the slice) whose 14-bit target is `q` — the shape the
pointer branch of `parse_domain_name` reads. -/
def ptrTo (data : List Nat) (p q : Nat) : Prop :=
  p + 1 < data.length ∧ byteAt data p &&& 0xC0 = 0xC0 ∧
    (((byteAt data p) &&& 0x3F) <<< 8) ||| byteAt data (p + 1) = q

instance (data : List Nat) (p q : Nat) : Decidable (ptrTo data p q) := by
  unfold ptrTo
  infer_instance

/-!
### Theorems

Supporting lemmas first, then one theorem per claim (with witnesses and
counterexamples where required).
-/

theorem lookupSession_cons (e : FlowKey × TcpSession)
    (l : List (FlowKey × TcpSession)) (k : FlowKey) :
    lookupSession (e :: l) k = if e.1 = k then some e.2 else lookupSession l k := by
  unfold lookupSession
  by_cases he : e.1 = k
  · rw [List.find?_cons_of_pos l (by simp [he]), if_pos he]
  · rw [List.find?_cons_of_neg l (by simp [he]), if_neg he]

theorem lookupSession_update (l : List (FlowKey × TcpSession)) (k : FlowKey)
    (s' : TcpSession) :
    lookupSession (updateSession l k s') k =
      (lookupSession l k).map (fun _ => s') := by
  induction l with
  | nil => rfl
  | cons e tl ih =>
    show lookupSession ((if e.1 = k then (e.1, s') else e) :: updateSession tl k s') k = _
    by_cases he : e.1 = k
    · rw [if_pos he, lookupSession_cons, lookupSession_cons, if_pos he, if_pos he]
      rfl
    · rw [if_neg he, lookupSession_cons, lookupSession_cons, if_neg he, if_neg he]
      exact ih

theorem lookupSession_append_left_none (l₁ l₂ : List (FlowKey × TcpSession))
    (k : FlowKey) (h : lookupSession l₁ k = none) :
    lookupSession (l₁ ++ l₂) k = lookupSession l₂ k := by
  induction l₁ with
  | nil => rfl
  | cons e tl ih =>
    rw [lookupSession_cons] at h
    rw [List.cons_append, lookupSession_cons]
    by_cases he : e.1 = k
    · rw [if_pos he] at h
      exact absurd h (by simp)
    · rw [if_neg he] at h
      rw [if_neg he]
      exact ih h

theorem lookupSession_eq_none (l : List (FlowKey × TcpSession)) (k : FlowKey)
    (h : ∀ e ∈ l, e.1 ≠ k) : lookupSession l k = none := by
  induction l with
  | nil => rfl
  | cons e tl ih =>
    rw [lookupSession_cons, if_neg (h e (by simp))]
    exact ih (fun e' he' => h e' (List.mem_cons_of_mem e he'))

theorem mem_ne_of_lookupSession_none (l : List (FlowKey × TcpSession))
    (k : FlowKey) (h : lookupSession l k = none) : ∀ e ∈ l, e.1 ≠ k := by
  induction l with
  | nil =>
    intro e he
    simp at he
  | cons e tl ih =>
    rw [lookupSession_cons] at h
    by_cases he : e.1 = k
    · rw [if_pos he] at h
      simp at h
    · rw [if_neg he] at h
      intro e' he'
      rcases List.mem_cons.mp he' with rfl | hmem
      · exact he
      · exact ih h e' hmem

theorem lookupSession_filter_none (l : List (FlowKey × TcpSession))
    (f : FlowKey × TcpSession → Bool) (k : FlowKey)
    (h : lookupSession l k = none) : lookupSession (l.filter f) k = none :=
  lookupSession_eq_none _ _
    (fun e he => mem_ne_of_lookupSession_none l k h e (List.mem_filter.mp he).1)

theorem lookupSession_removeSession_none (l : List (FlowKey × TcpSession))
    (k' k : FlowKey) (h : lookupSession l k = none) :
    lookupSession (removeSession l k') k = none := by
  unfold removeSession
  exact lookupSession_filter_none l _ k h

theorem lookupSession_singleton (k : FlowKey) (s : TcpSession) :
    lookupSession [(k, s)] k = some s := by
  rw [lookupSession_cons, if_pos rfl]

theorem updateSession_no_key (l : List (FlowKey × TcpSession)) (k : FlowKey)
    (s' : TcpSession) (h : ∀ e ∈ l, e.1 ≠ k) : updateSession l k s' = l := by
  induction l with
  | nil => rfl
  | cons e tl ih =>
    show (if e.1 = k then (e.1, s') else e) :: updateSession tl k s' = e :: tl
    rw [if_neg (h e (by simp)), ih (fun e' he' => h e' (List.mem_cons_of_mem e he'))]

theorem updateSession_append (l₁ l₂ : List (FlowKey × TcpSession)) (k : FlowKey)
    (s' : TcpSession) :
    updateSession (l₁ ++ l₂) k s' = updateSession l₁ k s' ++ updateSession l₂ k s' :=
  List.map_append _ _ _

theorem updateSession_append_fresh (l : List (FlowKey × TcpSession))
    (k : FlowKey) (s s' : TcpSession) (h : lookupSession l k = none) :
    updateSession (l ++ [(k, s)]) k s' = l ++ [(k, s')] := by
  rw [updateSession_append,
    updateSession_no_key l k s' (mem_ne_of_lookupSession_none l k h)]
  show l ++ [if (k, s).1 = k then ((k, s).1, s') else (k, s)] = l ++ [(k, s')]
  rw [if_pos rfl]

theorem insertFresh_lookup (l : List (FlowKey × TcpSession)) (k : FlowKey)
    (s s' : TcpSession) (h : lookupSession l k = none) :
    lookupSession (updateSession (l ++ [(k, s)]) k s') k = some s' := by
  rw [updateSession_append_fresh l k s s' h,
    lookupSession_append_left_none l _ k h, lookupSession_singleton]

theorem foldlMin_some (l : List (FlowKey × TcpSession)) :
    ∀ (m r : FlowKey × TcpSession),
      l.foldl
        (fun acc e =>
          match acc with
          | none => some e
          | some m' => if e.2.last_seen < m'.2.last_seen then some e else some m')
        (some m) = some r →
      (r = m ∨ r ∈ l) ∧ r.2.last_seen ≤ m.2.last_seen ∧
        ∀ e ∈ l, r.2.last_seen ≤ e.2.last_seen := by
  induction l with
  | nil =>
    intro m r h
    simp only [List.foldl_nil, Option.some.injEq] at h
    subst h
    exact ⟨Or.inl rfl, le_refl _, by simp⟩
  | cons e tl ih =>
    intro m r h
    rw [List.foldl_cons] at h
    by_cases hlt : e.2.last_seen < m.2.last_seen
    · rw [show (match some m with
          | none => some e
          | some m' => if e.2.last_seen < m'.2.last_seen then some e else some m') =
          some e from by dsimp only; rw [if_pos hlt]] at h
      obtain ⟨hmem, hle, hall⟩ := ih e r h
      refine ⟨Or.inr ?_, by omega, ?_⟩
      · rcases hmem with rfl | hmem
        · exact List.mem_cons_self _ _
        · exact List.mem_cons_of_mem e hmem
      · intro e' he'
        rcases List.mem_cons.mp he' with rfl | hmem'
        · exact hle
        · exact hall e' hmem'
    · rw [show (match some m with
          | none => some e
          | some m' => if e.2.last_seen < m'.2.last_seen then some e else some m') =
          some m from by dsimp only; rw [if_neg hlt]] at h
      obtain ⟨hmem, hle, hall⟩ := ih m r h
      refine ⟨?_, hle, ?_⟩
      · rcases hmem with rfl | hmem
        · exact Or.inl rfl
        · exact Or.inr (List.mem_cons_of_mem e hmem)
      · intro e' he'
        rcases List.mem_cons.mp he' with rfl | hmem'
        · omega
        · exact hall e' hmem'

theorem foldlMin_isSome (l : List (FlowKey × TcpSession)) :
    ∀ m : FlowKey × TcpSession,
      ∃ r, l.foldl
        (fun acc e =>
          match acc with
          | none => some e
          | some m' => if e.2.last_seen < m'.2.last_seen then some e else some m')
        (some m) = some r := by
  induction l with
  | nil =>
    intro m
    exact ⟨m, rfl⟩
  | cons e tl ih =>
    intro m
    rw [List.foldl_cons]
    by_cases hlt : e.2.last_seen < m.2.last_seen
    · rw [show (match some m with
          | none => some e
          | some m' => if e.2.last_seen < m'.2.last_seen then some e else some m') =
          some e from by dsimp only; rw [if_pos hlt]]
      exact ih e
    · rw [show (match some m with
          | none => some e
          | some m' => if e.2.last_seen < m'.2.last_seen then some e else some m') =
          some m from by dsimp only; rw [if_neg hlt]]
      exact ih m

/-- `oldestKey` of a nonempty table is the key of an entry whose `last_seen`
is minimal over the whole table. -/
theorem oldestKey_spec (l : List (FlowKey × TcpSession)) (hne : l ≠ []) :
    ∃ k₀ s₀, oldestKey l = some k₀ ∧ (k₀, s₀) ∈ l ∧
      ∀ e ∈ l, s₀.last_seen ≤ e.2.last_seen := by
  cases l with
  | nil => exact absurd rfl hne
  | cons e tl =>
    obtain ⟨r, hr⟩ := foldlMin_isSome tl e
    obtain ⟨hmem, hle, hall⟩ := foldlMin_some tl e r hr
    refine ⟨r.1, r.2, ?_, ?_, ?_⟩
    · unfold oldestKey
      rw [List.foldl_cons]
      rw [show (match (none : Option (FlowKey × TcpSession)) with
          | none => some e
          | some m' => if e.2.last_seen < m'.2.last_seen then some e else some m') =
          some e from rfl]
      rw [hr]
      rfl
    · rcases hmem with rfl | hmem
      · exact List.mem_cons_self _ _
      · exact List.mem_cons_of_mem e hmem
    · intro e' he'
      rcases List.mem_cons.mp he' with rfl | hmem'
      · exact hle
      · exact hall e' hmem'

/-- Removing the key of an entry of a duplicate-free table removes exactly
one entry. -/
theorem removeSession_cons (e : FlowKey × TcpSession)
    (tl : List (FlowKey × TcpSession)) (k : FlowKey) :
    removeSession (e :: tl) k =
      if e.1 = k then removeSession tl k else e :: removeSession tl k := by
  unfold removeSession
  by_cases he : e.1 = k
  · rw [if_pos he, List.filter_cons_of_neg]
    simp [he]
  · rw [if_neg he, List.filter_cons_of_pos]
    simp [he]

/-- Removing the key of an entry of a duplicate-free table removes exactly
one entry. -/
theorem removeSession_length (l : List (FlowKey × TcpSession)) (k : FlowKey)
    (s : TcpSession) (hmem : (k, s) ∈ l) (hnd : (l.map Prod.fst).Nodup) :
    (removeSession l k).length + 1 = l.length := by
  induction l with
  | nil => simp at hmem
  | cons e tl ih =>
    rw [List.map_cons, List.nodup_cons] at hnd
    rw [removeSession_cons]
    rcases List.mem_cons.mp hmem with heq | hmem2
    · have hk : e.1 = k := by rw [← heq]
      rw [if_pos hk]
      have hrem : removeSession tl k = tl := by
        unfold removeSession
        apply List.filter_eq_self.mpr
        intro e2 he2
        apply decide_eq_true
        intro hc
        apply hnd.1
        rw [hk, ← hc]
        exact List.mem_map_of_mem Prod.fst he2
      rw [hrem]
      simp
    · have hk : e.1 ≠ k := by
        intro hc
        apply hnd.1
        rw [hc]
        exact List.mem_map_of_mem Prod.fst hmem2
      rw [if_neg hk]
      have := ih hmem2 hnd.2
      simp only [List.length_cons]
      omega

/-- Any two sufficient budgets give the extraction loop the same result. -/
theorem drainBufferAux_irrel (max_packet_size : Nat) :
    ∀ (f1 f2 : Nat) (buf : List Nat) (stats : StatsCounter),
      buf.length ≤ f1 → buf.length ≤ f2 →
      drainBufferAux max_packet_size f1 buf stats =
        drainBufferAux max_packet_size f2 buf stats := by
  intro f1
  induction f1 with
  | zero =>
    intro f2 buf stats h1 h2
    have hbuf : buf = [] := List.eq_nil_of_length_eq_zero (by omega)
    subst hbuf
    cases f2 with
    | zero => rfl
    | succ f2 =>
      show ([], [], stats) = _
      unfold drainBufferAux
      rw [if_neg (by simp)]
  | succ f1 ih =>
    intro f2 buf stats h1 h2
    cases f2 with
    | zero =>
      have hbuf : buf = [] := List.eq_nil_of_length_eq_zero (by omega)
      subst hbuf
      unfold drainBufferAux
      rw [if_neg (by simp)]
    | succ f2 =>
      unfold drainBufferAux
      by_cases hc : 2 ≤ buf.length ∧ be16 buf 0 + 2 ≤ buf.length
      · rw [if_pos hc, if_pos hc]
        dsimp only
        rw [ih f2 (buf.drop (be16 buf 0 + 2)) _
          (by simp only [List.length_drop]; omega)
          (by simp only [List.length_drop]; omega)]
      · rw [if_neg hc, if_neg hc]

/-- One unfolding of the extraction loop when a complete frame is present. -/
theorem drainBufferAux_step (max_packet_size fuel : Nat) (buf : List Nat)
    (stats : StatsCounter)
    (h : 2 ≤ buf.length ∧ be16 buf 0 + 2 ≤ buf.length) :
    drainBufferAux max_packet_size (fuel + 1) buf stats =
      (match (UdpDnsParser.parse max_packet_size
          ((buf.drop 2).take (be16 buf 0)) stats).1 with
       | some message =>
         { message with protocol := DnsProtocol.Tcp } ::
           (drainBufferAux max_packet_size fuel (buf.drop (be16 buf 0 + 2))
             (UdpDnsParser.parse max_packet_size
               ((buf.drop 2).take (be16 buf 0)) stats).2).1
       | none =>
         (drainBufferAux max_packet_size fuel (buf.drop (be16 buf 0 + 2))
           (UdpDnsParser.parse max_packet_size
             ((buf.drop 2).take (be16 buf 0)) stats).2).1,
       (drainBufferAux max_packet_size fuel (buf.drop (be16 buf 0 + 2))
         (UdpDnsParser.parse max_packet_size
           ((buf.drop 2).take (be16 buf 0)) stats).2).2.1,
       (drainBufferAux max_packet_size fuel (buf.drop (be16 buf 0 + 2))
         (UdpDnsParser.parse max_packet_size
           ((buf.drop 2).take (be16 buf 0)) stats).2).2.2) := by
  conv_lhs => rw [drainBufferAux]
  rw [if_pos h]

/-- One unfolding of `drainBuffer` when a complete frame is present. -/
theorem drainBuffer_step (max_packet_size : Nat) (buf : List Nat)
    (stats : StatsCounter)
    (h : 2 ≤ buf.length ∧ be16 buf 0 + 2 ≤ buf.length) :
    drainBuffer max_packet_size buf stats =
      (match (UdpDnsParser.parse max_packet_size
          ((buf.drop 2).take (be16 buf 0)) stats).1 with
       | some message =>
         { message with protocol := DnsProtocol.Tcp } ::
           (drainBuffer max_packet_size (buf.drop (be16 buf 0 + 2))
             (UdpDnsParser.parse max_packet_size
               ((buf.drop 2).take (be16 buf 0)) stats).2).1
       | none =>
         (drainBuffer max_packet_size (buf.drop (be16 buf 0 + 2))
           (UdpDnsParser.parse max_packet_size
             ((buf.drop 2).take (be16 buf 0)) stats).2).1,
       (drainBuffer max_packet_size (buf.drop (be16 buf 0 + 2))
         (UdpDnsParser.parse max_packet_size
           ((buf.drop 2).take (be16 buf 0)) stats).2).2.1,
       (drainBuffer max_packet_size (buf.drop (be16 buf 0 + 2))
         (UdpDnsParser.parse max_packet_size
           ((buf.drop 2).take (be16 buf 0)) stats).2).2.2) := by
  unfold drainBuffer
  conv_lhs => rw [show buf.length = (buf.length - 1) + 1 from by omega]
  rw [drainBufferAux_step max_packet_size (buf.length - 1) buf stats h]
  rw [drainBufferAux_irrel max_packet_size (buf.length - 1)
    ((buf.drop (be16 buf 0 + 2)).length) (buf.drop (be16 buf 0 + 2)) _
    (by simp only [List.length_drop]; omega) (le_refl _)]

/-- The extraction loop leaves a buffer without a complete frame untouched. -/
theorem drainBuffer_incomplete (max_packet_size : Nat) (buf : List Nat)
    (stats : StatsCounter) (h : incompleteFrame buf) :
    drainBuffer max_packet_size buf stats = ([], buf, stats) := by
  unfold drainBuffer
  cases hlen : buf.length with
  | zero => rfl
  | succ n =>
    conv_lhs => rw [drainBufferAux]
    rw [if_neg]
    rintro ⟨h1, h2⟩
    unfold incompleteFrame at h
    omega

theorem drainBuffer_nil (max_packet_size : Nat) (stats : StatsCounter) :
    drainBuffer max_packet_size [] stats = ([], [], stats) :=
  drainBuffer_incomplete max_packet_size [] stats (Or.inl (by simp))

/-- Inserting a fresh flow with an empty segment when the table has room:
the new session is appended, nothing else changes. -/
theorem process_fresh_room (p : TcpDnsParser) (src_ip dst_ip src_port dst_port : Nat)
    (stats : StatsCounter)
    (hlk : lookupSession p.tcp_sessions (src_ip, dst_ip, src_port, dst_port) = none)
    (hroom : p.tcp_sessions.length < p.max_sessions) :
    p.process_tcp_segment src_ip dst_ip src_port dst_port [] stats =
      ([],
       TcpDnsParser.mk
         (p.tcp_sessions ++
           [((src_ip, dst_ip, src_port, dst_port), TcpSession.mk [] p.current_time_ms)])
         p.max_packet_size p.max_sessions p.session_timeout_ms p.current_time_ms,
       stats) := by
  unfold TcpDnsParser.process_tcp_segment
  simp only [hlk]
  rw [if_neg (show ¬p.tcp_sessions.length ≥ p.max_sessions by omega)]
  rw [show lookupSession
      (p.tcp_sessions ++
        [((src_ip, dst_ip, src_port, dst_port), TcpSession.mk [] p.current_time_ms)])
      (src_ip, dst_ip, src_port, dst_port) =
      some (TcpSession.mk [] p.current_time_ms) from by
    rw [lookupSession_append_left_none _ _ _ hlk]
    exact lookupSession_singleton _ _]
  dsimp only
  rw [if_neg (by simp)]
  simp only [List.append_nil]
  rw [drainBuffer_nil]
  dsimp only
  rw [updateSession_append_fresh _ _ _ _ hlk]

/-- Inserting a fresh flow with an empty segment into a full table none of
whose entries is idle: the single entry with minimal `last_seen` is evicted,
then the new session is appended. -/
theorem process_fresh_full (p : TcpDnsParser) (src_ip dst_ip src_port dst_port : Nat)
    (stats : StatsCounter)
    (hlk : lookupSession p.tcp_sessions (src_ip, dst_ip, src_port, dst_port) = none)
    (hfull : p.tcp_sessions.length ≥ p.max_sessions)
    (hfresh : ∀ e ∈ p.tcp_sessions,
      p.current_time_ms - p.session_timeout_ms < e.2.last_seen)
    (hne : p.tcp_sessions ≠ []) :
    ∃ k₀ s₀, (k₀, s₀) ∈ p.tcp_sessions ∧
      (∀ e ∈ p.tcp_sessions, s₀.last_seen ≤ e.2.last_seen) ∧
      p.process_tcp_segment src_ip dst_ip src_port dst_port [] stats =
        ([],
         TcpDnsParser.mk
           (removeSession p.tcp_sessions k₀ ++
             [((src_ip, dst_ip, src_port, dst_port), TcpSession.mk [] p.current_time_ms)])
           p.max_packet_size p.max_sessions p.session_timeout_ms p.current_time_ms,
         stats) := by
  have hfilter :
      p.tcp_sessions.filter
        (fun e => decide (p.current_time_ms - p.session_timeout_ms < e.2.last_seen)) =
        p.tcp_sessions :=
    List.filter_eq_self.mpr (fun e he => decide_eq_true (hfresh e he))
  obtain ⟨k₀, s₀, holdk, hmem, hmin⟩ := oldestKey_spec p.tcp_sessions hne
  refine ⟨k₀, s₀, hmem, hmin, ?_⟩
  have hremnone := lookupSession_removeSession_none p.tcp_sessions k₀ _ hlk
  unfold TcpDnsParser.process_tcp_segment TcpDnsParser.cleanup_sessions
  simp only [hlk]
  rw [if_pos hfull]
  rw [hfilter, if_pos hfull, holdk]
  dsimp only
  rw [show lookupSession
      (removeSession p.tcp_sessions k₀ ++
        [((src_ip, dst_ip, src_port, dst_port), TcpSession.mk [] p.current_time_ms)])
      (src_ip, dst_ip, src_port, dst_port) =
      some (TcpSession.mk [] p.current_time_ms) from by
    rw [lookupSession_append_left_none _ _ _ hremnone]
    exact lookupSession_singleton _ _]
  dsimp only
  rw [if_neg (by simp)]
  simp only [List.append_nil]
  rw [drainBuffer_nil]
  dsimp only
  rw [updateSession_append_fresh _ _ _ _ hremnone]

/-- Inserting a fresh flow with an empty segment into a full table whose idle
cleanup frees room: only the idle entries are evicted, then the new session is
appended (no oldest-entry eviction). -/
theorem process_fresh_idle (p : TcpDnsParser) (src_ip dst_ip src_port dst_port : Nat)
    (stats : StatsCounter)
    (hlk : lookupSession p.tcp_sessions (src_ip, dst_ip, src_port, dst_port) = none)
    (hfull : p.tcp_sessions.length ≥ p.max_sessions)
    (hshrunk :
      (p.tcp_sessions.filter
        (fun e => decide (p.current_time_ms - p.session_timeout_ms < e.2.last_seen))).length <
        p.max_sessions) :
    p.process_tcp_segment src_ip dst_ip src_port dst_port [] stats =
      ([],
       TcpDnsParser.mk
         (p.tcp_sessions.filter
           (fun e => decide (p.current_time_ms - p.session_timeout_ms < e.2.last_seen)) ++
           [((src_ip, dst_ip, src_port, dst_port), TcpSession.mk [] p.current_time_ms)])
         p.max_packet_size p.max_sessions p.session_timeout_ms p.current_time_ms,
       stats) := by
  have hfilnone := lookupSession_filter_none p.tcp_sessions
    (fun e => decide (p.current_time_ms - p.session_timeout_ms < e.2.last_seen)) _ hlk
  unfold TcpDnsParser.process_tcp_segment TcpDnsParser.cleanup_sessions
  simp only [hlk]
  rw [if_pos hfull]
  rw [if_neg (show ¬(p.tcp_sessions.filter
      (fun e => decide (p.current_time_ms - p.session_timeout_ms < e.2.last_seen))).length ≥
      p.max_sessions by omega)]
  rw [show lookupSession
      (p.tcp_sessions.filter
        (fun e => decide (p.current_time_ms - p.session_timeout_ms < e.2.last_seen)) ++
        [((src_ip, dst_ip, src_port, dst_port), TcpSession.mk [] p.current_time_ms)])
      (src_ip, dst_ip, src_port, dst_port) =
      some (TcpSession.mk [] p.current_time_ms) from by
    rw [lookupSession_append_left_none _ _ _ hfilnone]
    exact lookupSession_singleton _ _]
  dsimp only
  rw [if_neg (by simp)]
  simp only [List.append_nil]
  rw [drainBuffer_nil]
  dsimp only
  rw [updateSession_append_fresh _ _ _ _ hfilnone]

/-- Feeding a list of distinct fresh flows (with empty segments) to a table
with room appends one fresh session per flow, in order. -/
theorem feedFlows_grow :
    ∀ (flows : List FlowKey) (p : TcpDnsParser),
      (∀ k ∈ flows, lookupSession p.tcp_sessions k = none) →
      flows.Nodup →
      p.tcp_sessions.length + flows.length ≤ p.max_sessions →
      flows.foldl
        (fun q k =>
          (q.process_tcp_segment k.1 k.2.1 k.2.2.1 k.2.2.2 [] StatsCounter.zero).2.1)
        p =
      TcpDnsParser.mk
        (p.tcp_sessions ++
          flows.map (fun k => (k, TcpSession.mk [] p.current_time_ms)))
        p.max_packet_size p.max_sessions p.session_timeout_ms p.current_time_ms := by
  intro flows
  induction flows with
  | nil =>
    intro p _ _ _
    simp only [List.foldl_nil, List.map_nil, List.append_nil]
  | cons k flows ih =>
    intro p hfreshk hnd hlen
    obtain ⟨a, b, c, d⟩ := k
    rw [List.foldl_cons]
    dsimp only
    have hstep := process_fresh_room p a b c d StatsCounter.zero
      (hfreshk _ (List.mem_cons_self _ _))
      (by simp only [List.length_cons] at hlen; omega)
    rw [hstep]
    dsimp only
    rw [ih _ ?hfresh ?hnd ?hlen]
    case hfresh =>
      intro k' hk'
      dsimp only
      rw [lookupSession_append_left_none _ _ _
        (hfreshk k' (List.mem_cons_of_mem _ hk')), lookupSession_cons]
      rw [if_neg]
      · rfl
      · show ¬(a, b, c, d) = k'
        intro hc
        exact (List.nodup_cons.mp hnd).1 (hc ▸ hk')
    case hnd => exact (List.nodup_cons.mp hnd).2
    case hlen =>
      dsimp only
      rw [List.length_append]
      simp only [List.length_cons] at hlen
      simp only [List.length_singleton]
      omega
    dsimp only
    rw [List.map_cons, List.append_assoc]
    rfl

/-- Keys absent from a list of flows are absent from the fresh table built
over those flows. -/
theorem lookupSession_freshMap_none (ks : List FlowKey) (s : TcpSession)
    (k : FlowKey) (hk : k ∉ ks) :
    lookupSession (ks.map (fun k' => (k', s))) k = none := by
  apply lookupSession_eq_none
  intro e he
  obtain ⟨k', hk', rfl⟩ := List.mem_map.mp he
  intro hc
  exact hk (by rw [← hc]; exact hk')

/-- The message returned by the Wire Decoder does not depend on the counter
state threaded through it (the counters are write-only). -/
theorem parse_fst_irrel (max_packet_size : Nat) (data : List Nat)
    (stats : StatsCounter) :
    (UdpDnsParser.parse max_packet_size data stats).1 =
      (UdpDnsParser.parse max_packet_size data StatsCounter.zero).1 := by
  unfold UdpDnsParser.parse
  split
  · rfl
  · cases hq : parseQuestions data (be16 data 4) 12 with
    | none => rfl
    | some qsoff =>
      obtain ⟨qs, off⟩ := qsoff
      dsimp only
      split
      · rfl
      · rfl

theorem encode_cons (m : List Nat) (msgs : List (List Nat)) :
    encode (m :: msgs) = encOne m ++ encode msgs := by
  unfold encode
  rw [List.map_cons, List.flatten_cons]

theorem encOne_length (m : List Nat) : (encOne m).length = m.length + 2 := by
  unfold encOne
  simp only [List.length_cons]

theorem byteAt_append_left (l₁ l₂ : List Nat) (i : Nat) (h : i < l₁.length) :
    byteAt (l₁ ++ l₂) i = byteAt l₁ i := by
  unfold byteAt
  rw [List.getD_append _ _ _ _ h]

/-- A valid encoding with no complete first frame encodes no messages. -/
theorem encode_incomplete_nil (msgs : List (List Nat))
    (hwf : ∀ m ∈ msgs, m.length < 65536)
    (h : incompleteFrame (encode msgs)) : msgs = [] := by
  cases msgs with
  | nil => rfl
  | cons m msgs =>
    exfalso
    rw [encode_cons] at h
    unfold encOne at h
    unfold incompleteFrame at h
    have hbe : be16 ((m.length / 256 :: m.length % 256 :: m) ++ encode msgs) 0 =
        m.length := by
      show m.length / 256 * 256 + m.length % 256 = m.length
      omega
    rw [hbe] at h
    simp only [List.cons_append, List.length_cons, List.length_append] at h
    omega

/-- Draining a buffer holding a series of length-prefixed messages followed
by an incomplete tail emits exactly the parse results of those messages (in
order, retagged `Tcp`) and leaves the tail. -/
theorem drainBuffer_encode (max_packet_size : Nat) :
    ∀ (msgs : List (List Nat)) (rem : List Nat) (stats : StatsCounter),
      (∀ m ∈ msgs, m.length < 65536) →
      incompleteFrame rem →
      (drainBuffer max_packet_size (encode msgs ++ rem) stats).1 =
        msgs.filterMap (parsedTcp max_packet_size) ∧
      (drainBuffer max_packet_size (encode msgs ++ rem) stats).2.1 = rem := by
  intro msgs
  induction msgs with
  | nil =>
    intro rem stats _ hinc
    rw [show encode [] ++ rem = rem from by
      unfold encode
      rw [List.map_nil, List.flatten_nil, List.nil_append]]
    rw [drainBuffer_incomplete max_packet_size rem stats hinc]
    exact ⟨rfl, rfl⟩
  | cons m msgs ih =>
    intro rem stats hwf hinc
    have hwfm : m.length < 65536 := hwf m (List.mem_cons_self _ _)
    have hbuf : encode (m :: msgs) ++ rem =
        m.length / 256 :: m.length % 256 :: (m ++ (encode msgs ++ rem)) := by
      rw [encode_cons]
      unfold encOne
      simp [List.cons_append, List.append_assoc]
    rw [hbuf]
    have hbe : be16 (m.length / 256 :: m.length % 256 :: (m ++ (encode msgs ++ rem))) 0 =
        m.length := by
      show m.length / 256 * 256 + m.length % 256 = m.length
      omega
    have hcond : 2 ≤ (m.length / 256 :: m.length % 256 :: (m ++ (encode msgs ++ rem))).length ∧
        be16 (m.length / 256 :: m.length % 256 :: (m ++ (encode msgs ++ rem))) 0 + 2 ≤
          (m.length / 256 :: m.length % 256 :: (m ++ (encode msgs ++ rem))).length := by
      rw [hbe]
      simp only [List.length_cons, List.length_append]
      omega
    rw [drainBuffer_step max_packet_size _ stats hcond, hbe]
    have hdata : ((m.length / 256 :: m.length % 256 :: (m ++ (encode msgs ++ rem))).drop 2).take
        m.length = m := by
      show (m ++ (encode msgs ++ rem)).take m.length = m
      exact List.take_left m _
    have hdrop : (m.length / 256 :: m.length % 256 :: (m ++ (encode msgs ++ rem))).drop
        (m.length + 2) = encode msgs ++ rem := by
      show (m ++ (encode msgs ++ rem)).drop m.length = encode msgs ++ rem
      exact List.drop_left m _
    rw [hdata, hdrop]
    have hih := ih rem (UdpDnsParser.parse max_packet_size m stats).2
      (fun m' hm' => hwf m' (List.mem_cons_of_mem _ hm')) hinc
    have hpt : parsedTcp max_packet_size m =
        ((UdpDnsParser.parse max_packet_size m stats).1).map
          (fun x => { x with protocol := DnsProtocol.Tcp }) := by
      unfold parsedTcp
      rw [parse_fst_irrel max_packet_size m stats]
    cases hp : (UdpDnsParser.parse max_packet_size m stats).1 with
    | some msg =>
      refine ⟨?_, ?_⟩
      · show ({ msg with protocol := DnsProtocol.Tcp } ::
            (drainBuffer max_packet_size (encode msgs ++ rem)
              (UdpDnsParser.parse max_packet_size m stats).2).1) = _
        rw [List.filterMap_cons, hpt, hp]
        show _ = { msg with protocol := DnsProtocol.Tcp } ::
          List.filterMap (parsedTcp max_packet_size) msgs
        rw [hih.1]
      · exact hih.2
    | none =>
      refine ⟨?_, ?_⟩
      · show (drainBuffer max_packet_size (encode msgs ++ rem)
            (UdpDnsParser.parse max_packet_size m stats).2).1 = _
        rw [List.filterMap_cons, hpt, hp]
        exact hih.1
      · exact hih.2

theorem append_decomp (b d : List Nat) :
    ∀ (c a : List Nat), c.length ≤ a.length → a ++ b = c ++ d →
      ∃ a', a = c ++ a' ∧ a' ++ b = d := by
  intro c
  induction c with
  | nil =>
    intro a _ h
    exact ⟨a, by simp, by simpa using h⟩
  | cons x c ih =>
    intro a hlen h
    cases a with
    | nil => simp at hlen
    | cons y a =>
      simp only [List.cons_append] at h
      injection h with h1 h2
      subst h1
      obtain ⟨a', ha, hb⟩ := ih a
        (by simp only [List.length_cons] at hlen ⊢; omega) h2
      exact ⟨a', by rw [List.cons_append, ha], hb⟩

/-- Any prefix of a series of length-prefixed frames splits into a series of
whole frames followed by an incomplete tail of the next frame. -/
theorem encode_prefix_decomp :
    ∀ (msgs : List (List Nat)) (P t : List Nat),
      P ++ t = encode msgs →
      ∃ done rest rem, msgs = done ++ rest ∧ P = encode done ++ rem ∧
        incompleteFrame rem ∧ rem ++ t = encode rest := by
  intro msgs
  induction msgs with
  | nil =>
    intro P t heq
    rw [show encode ([] : List (List Nat)) = [] from rfl] at heq
    obtain ⟨hP, ht⟩ := List.append_eq_nil.mp heq
    subst hP
    subst ht
    exact ⟨[], [], [], rfl, rfl, Or.inl (by simp), rfl⟩
  | cons m msgs ih =>
    intro P t heq
    rw [encode_cons] at heq
    by_cases hP : m.length + 2 ≤ P.length
    · obtain ⟨P', hP1, hP2⟩ := append_decomp t (encode msgs) (encOne m) P
        (by rw [encOne_length]; omega) heq
      obtain ⟨done, rest, rem, hm, hp, hinc, hrt⟩ := ih P' t hP2
      refine ⟨m :: done, rest, rem, by rw [hm, List.cons_append], ?_, hinc, hrt⟩
      rw [hP1, hp, encode_cons, List.append_assoc]
    · refine ⟨[], m :: msgs, P, rfl,
        by rw [show encode ([] : List (List Nat)) = [] from rfl, List.nil_append],
        ?_, by rw [← encode_cons] at heq; exact heq⟩
      rcases P with _ | ⟨b0, P1⟩
      · exact Or.inl (by simp)
      rcases P1 with _ | ⟨b1, P2⟩
      · exact Or.inl (by simp)
      right
      unfold encOne at heq
      simp only [List.cons_append] at heq
      injection heq with h1 h2
      injection h2 with h3 h4
      subst h1
      subst h3
      have hbe : be16 (m.length / 256 :: m.length % 256 :: P2) 0 = m.length := by
        show m.length / 256 * 256 + m.length % 256 = m.length
        omega
      rw [hbe]
      simp only [List.length_cons] at hP ⊢
      omega

/-- Buffer-level chunking independence: feeding any segmentation of a series
of length-prefixed messages (preceded by an incomplete leftover consistent
with the stream) emits exactly the parse results of those messages, in order,
as long as the pending bytes never overflow. -/
theorem feedBufs_exact (max_packet_size : Nat) :
    ∀ (segs msgs : List (List Nat)) (rem : List Nat) (stats : StatsCounter),
      (∀ m ∈ msgs, m.length < 65536) →
      incompleteFrame rem →
      rem ++ segs.flatten = encode msgs →
      noOverflowB max_packet_size segs rem = true →
      (feedBufs max_packet_size segs rem stats).1 =
        msgs.filterMap (parsedTcp max_packet_size) := by
  intro segs
  induction segs with
  | nil =>
    intro msgs rem stats hwf hinc heq _
    simp only [List.flatten_nil, List.append_nil] at heq
    have hmsgs : msgs = [] := encode_incomplete_nil msgs hwf (heq ▸ hinc)
    subst hmsgs
    rfl
  | cons seg rest ih =>
    intro msgs rem stats hwf hinc heq hov
    have hBt : (rem ++ seg) ++ rest.flatten = encode msgs := by
      rw [List.append_assoc,
        show seg ++ rest.flatten = (seg :: rest).flatten from List.flatten_cons.symm]
      exact heq
    obtain ⟨done, rest2, rem', hm, hB, hinc', hrt⟩ :=
      encode_prefix_decomp msgs (rem ++ seg) rest.flatten hBt
    unfold noOverflowB at hov
    rw [Bool.and_eq_true, decide_eq_true_eq] at hov
    have hnoov : ¬((rem ++ seg).length > max_packet_size) := by omega
    have hwfdone : ∀ m' ∈ done, m'.length < 65536 := fun m' hm' =>
      hwf m' (by rw [hm]; exact List.mem_append_left _ hm')
    have hs1 : (sessionStep max_packet_size rem seg stats).1 =
        done.filterMap (parsedTcp max_packet_size) := by
      unfold sessionStep
      rw [if_neg hnoov, hB]
      exact (drainBuffer_encode max_packet_size done rem' stats hwfdone hinc').1
    have hs2 : (sessionStep max_packet_size rem seg stats).2.1 = rem' := by
      unfold sessionStep
      rw [if_neg hnoov, hB]
      exact (drainBuffer_encode max_packet_size done rem' stats hwfdone hinc').2
    have hnext : nextBuffer max_packet_size rem seg = rem' := by
      unfold nextBuffer sessionStep
      rw [if_neg hnoov, hB]
      exact (drainBuffer_encode max_packet_size done rem' StatsCounter.zero
        hwfdone hinc').2
    have hov2 : noOverflowB max_packet_size rest rem' = true := by
      rw [← hnext]
      exact hov.2
    conv_lhs => rw [feedBufs]
    dsimp only
    rw [hs1, hs2]
    rw [ih rest2 rem' (sessionStep max_packet_size rem seg stats).2.2
      (fun m' hm' => hwf m' (by rw [hm]; exact List.mem_append_right _ hm'))
      hinc' hrt hov2]
    rw [hm, List.filterMap_append]

/-- Characterization of `process_tcp_segment` on a flow already in the
table: the per-session step `sessionStep` runs on the stored buffer and the
table entry is replaced by the resulting buffer with a refreshed
`last_seen`. -/
theorem process_existing (p : TcpDnsParser) (src_ip dst_ip src_port dst_port : Nat)
    (sess : TcpSession) (data : List Nat) (stats : StatsCounter)
    (hlk : lookupSession p.tcp_sessions (src_ip, dst_ip, src_port, dst_port) = some sess) :
    p.process_tcp_segment src_ip dst_ip src_port dst_port data stats =
      ((sessionStep p.max_packet_size sess.buffer data stats).1,
       TcpDnsParser.mk
         (updateSession p.tcp_sessions (src_ip, dst_ip, src_port, dst_port)
           (TcpSession.mk (sessionStep p.max_packet_size sess.buffer data stats).2.1
             p.current_time_ms))
         p.max_packet_size p.max_sessions p.session_timeout_ms p.current_time_ms,
       (sessionStep p.max_packet_size sess.buffer data stats).2.2) := by
  unfold TcpDnsParser.process_tcp_segment sessionStep
  simp only [hlk]
  split
  · rfl
  · rfl

/-- Characterization of `process_tcp_segment` on a flow not yet in the table:
some eviction of old entries happens (yielding a sub-table `X` that still does
not contain the key), the fresh session is appended, and the per-session step
runs on the empty buffer. -/
theorem process_fresh (p : TcpDnsParser) (src_ip dst_ip src_port dst_port : Nat)
    (data : List Nat) (stats : StatsCounter)
    (hlk : lookupSession p.tcp_sessions (src_ip, dst_ip, src_port, dst_port) = none) :
    ∃ X : List (FlowKey × TcpSession),
      lookupSession X (src_ip, dst_ip, src_port, dst_port) = none ∧
      p.process_tcp_segment src_ip dst_ip src_port dst_port data stats =
        ((sessionStep p.max_packet_size [] data stats).1,
         TcpDnsParser.mk
           (updateSession
             (X ++ [((src_ip, dst_ip, src_port, dst_port),
               TcpSession.mk [] p.current_time_ms)])
             (src_ip, dst_ip, src_port, dst_port)
             (TcpSession.mk (sessionStep p.max_packet_size [] data stats).2.1
               p.current_time_ms))
           p.max_packet_size p.max_sessions p.session_timeout_ms p.current_time_ms,
         (sessionStep p.max_packet_size [] data stats).2.2) := by
  unfold TcpDnsParser.process_tcp_segment sessionStep TcpDnsParser.cleanup_sessions
  simp only [hlk]
  by_cases hfull : p.tcp_sessions.length ≥ p.max_sessions
  · rw [if_pos hfull]
    by_cases hstill :
        (p.tcp_sessions.filter
          (fun e => decide (p.current_time_ms - p.session_timeout_ms < e.2.last_seen))).length ≥
          p.max_sessions
    · rw [if_pos hstill]
      cases hold :
          oldestKey
            (p.tcp_sessions.filter
              (fun e =>
                decide (p.current_time_ms - p.session_timeout_ms < e.2.last_seen))) with
      | some key =>
        refine ⟨removeSession
          (p.tcp_sessions.filter
            (fun e => decide (p.current_time_ms - p.session_timeout_ms < e.2.last_seen)))
          key, lookupSession_removeSession_none _ _ _ (lookupSession_filter_none _ _ _ hlk), ?_⟩
        simp only [hold]
        have hbuf :
            lookupSession
              (removeSession
                (p.tcp_sessions.filter
                  (fun e =>
                    decide (p.current_time_ms - p.session_timeout_ms < e.2.last_seen)))
                key ++
                [((src_ip, dst_ip, src_port, dst_port), TcpSession.mk [] p.current_time_ms)])
              (src_ip, dst_ip, src_port, dst_port) =
              some (TcpSession.mk [] p.current_time_ms) :=
          by
            rw [lookupSession_append_left_none _ _ _
              (lookupSession_removeSession_none _ _ _ (lookupSession_filter_none _ _ _ hlk))]
            exact lookupSession_singleton _ _
        rw [hbuf]
        split
        · rfl
        · rfl
      | none =>
        refine ⟨p.tcp_sessions.filter
          (fun e => decide (p.current_time_ms - p.session_timeout_ms < e.2.last_seen)),
          lookupSession_filter_none _ _ _ hlk, ?_⟩
        simp only [hold]
        have hbuf :
            lookupSession
              (p.tcp_sessions.filter
                (fun e =>
                  decide (p.current_time_ms - p.session_timeout_ms < e.2.last_seen)) ++
                [((src_ip, dst_ip, src_port, dst_port), TcpSession.mk [] p.current_time_ms)])
              (src_ip, dst_ip, src_port, dst_port) =
              some (TcpSession.mk [] p.current_time_ms) :=
          by
            rw [lookupSession_append_left_none _ _ _
              (lookupSession_filter_none _ _ _ hlk)]
            exact lookupSession_singleton _ _
        rw [hbuf]
        split
        · rfl
        · rfl
    · rw [if_neg hstill]
      refine ⟨p.tcp_sessions.filter
        (fun e => decide (p.current_time_ms - p.session_timeout_ms < e.2.last_seen)),
        lookupSession_filter_none _ _ _ hlk, ?_⟩
      have hbuf :
          lookupSession
            (p.tcp_sessions.filter
              (fun e =>
                decide (p.current_time_ms - p.session_timeout_ms < e.2.last_seen)) ++
              [((src_ip, dst_ip, src_port, dst_port), TcpSession.mk [] p.current_time_ms)])
            (src_ip, dst_ip, src_port, dst_port) =
            some (TcpSession.mk [] p.current_time_ms) :=
        by
          rw [lookupSession_append_left_none _ _ _
            (lookupSession_filter_none _ _ _ hlk)]
          exact lookupSession_singleton _ _
      rw [hbuf]
      split
      · rfl
      · rfl
  · rw [if_neg hfull]
    refine ⟨p.tcp_sessions, hlk, ?_⟩
    have hbuf :
        lookupSession
          (p.tcp_sessions ++
            [((src_ip, dst_ip, src_port, dst_port), TcpSession.mk [] p.current_time_ms)])
          (src_ip, dst_ip, src_port, dst_port) =
          some (TcpSession.mk [] p.current_time_ms) :=
      by
        rw [lookupSession_append_left_none _ _ _ hlk]
        exact lookupSession_singleton _ _
    rw [hbuf]
    split
    · rfl
    · rfl

theorem updateSession_singleton (k : FlowKey) (s s' : TcpSession) :
    updateSession [(k, s)] k s' = [(k, s')] := by
  show (if (k, s).1 = k then ((k, s).1, s') else (k, s)) :: [] = [(k, s')]
  rw [if_pos rfl]

/-- Processing a segment of a fresh flow on an empty table: the fresh session
is created (the eviction sweep over the empty table removes nothing, whatever
`max_sessions` is) and the per-session step runs on the empty buffer. -/
theorem process_empty_table (mps maxS T now src_ip dst_ip src_port dst_port : Nat)
    (seg : List Nat) (stats : StatsCounter) :
    (TcpDnsParser.mk [] mps maxS T now).process_tcp_segment
        src_ip dst_ip src_port dst_port seg stats =
      ((sessionStep mps [] seg stats).1,
       TcpDnsParser.mk
         [((src_ip, dst_ip, src_port, dst_port),
           TcpSession.mk (sessionStep mps [] seg stats).2.1 now)]
         mps maxS T now,
       (sessionStep mps [] seg stats).2.2) := by
  unfold TcpDnsParser.process_tcp_segment TcpDnsParser.cleanup_sessions
  dsimp only
  rw [show lookupSession ([] : List (FlowKey × TcpSession))
    (src_ip, dst_ip, src_port, dst_port) = none from rfl]
  dsimp only
  rw [show (List.filter (fun e : FlowKey × TcpSession =>
    decide (now - T < e.2.last_seen)) []) = [] from rfl]
  rw [show oldestKey ([] : List (FlowKey × TcpSession)) = none from rfl]
  dsimp only
  rw [ite_self, ite_self]
  simp only [List.nil_append]
  rw [lookupSession_singleton]
  dsimp only
  unfold sessionStep
  split
  · rw [updateSession_singleton]
  · rw [updateSession_singleton]

/-- A reassembler holding exactly the one flow being fed behaves like the
buffer-level segment chain. -/
theorem feedSegments_single_flow (src_ip dst_ip src_port dst_port : Nat) :
    ∀ (segs : List (List Nat)) (buf : List Nat) (t mps maxS T now : Nat)
      (stats : StatsCounter),
      (feedSegments src_ip dst_ip src_port dst_port segs
        (TcpDnsParser.mk
          [((src_ip, dst_ip, src_port, dst_port), TcpSession.mk buf t)]
          mps maxS T now)
        stats).1 = (feedBufs mps segs buf stats).1 := by
  intro segs
  induction segs with
  | nil =>
    intro buf t mps maxS T now stats
    rfl
  | cons seg rest ih =>
    intro buf t mps maxS T now stats
    have hproc := process_existing
      (TcpDnsParser.mk [((src_ip, dst_ip, src_port, dst_port), TcpSession.mk buf t)]
        mps maxS T now)
      src_ip dst_ip src_port dst_port (TcpSession.mk buf t) seg stats
      (lookupSession_singleton _ _)
    conv_lhs => rw [feedSegments]
    dsimp only
    rw [hproc]
    dsimp only
    rw [updateSession_singleton]
    rw [ih _ now mps maxS T now _]
    conv_rhs => rw [feedBufs]

/-- Feeding segments of one flow to a fresh reassembler behaves like the
buffer-level segment chain started on the empty buffer. -/
theorem feedSegments_fresh_start (src_ip dst_ip src_port dst_port mps maxS T now : Nat)
    (segs : List (List Nat)) (stats : StatsCounter) :
    (feedSegments src_ip dst_ip src_port dst_port segs
      (TcpDnsParser.mk [] mps maxS T now) stats).1 =
      (feedBufs mps segs [] stats).1 := by
  cases segs with
  | nil => rfl
  | cons seg rest =>
    conv_lhs => rw [feedSegments]
    dsimp only
    rw [process_empty_table mps maxS T now src_ip dst_ip src_port dst_port seg stats]
    dsimp only
    rw [feedSegments_single_flow src_ip dst_ip src_port dst_port rest _ now mps maxS T
      now _]
    conv_rhs => rw [feedBufs]

theorem filterMap_parsedTcp_length (max_packet_size : Nat) :
    ∀ msgs : List (List Nat),
      (∀ m ∈ msgs,
        ((UdpDnsParser.parse max_packet_size m StatsCounter.zero).1).isSome = true) →
      (msgs.filterMap (parsedTcp max_packet_size)).length = msgs.length := by
  intro msgs
  induction msgs with
  | nil =>
    intro _
    rfl
  | cons m msgs ih =>
    intro hwf
    obtain ⟨x, hx⟩ := Option.isSome_iff_exists.mp (hwf m (List.mem_cons_self _ _))
    rw [List.filterMap_cons,
      show parsedTcp max_packet_size m = some { x with protocol := DnsProtocol.Tcp }
        from by unfold parsedTcp; rw [hx]; rfl]
    simp only [List.length_cons]
    rw [ih (fun m' hm' => hwf m' (List.mem_cons_of_mem _ hm'))]

theorem mem_filterMap_parsedTcp_protocol (max_packet_size : Nat)
    (msgs : List (List Nat)) (msg : DnsMessage)
    (h : msg ∈ msgs.filterMap (parsedTcp max_packet_size)) :
    msg.protocol = DnsProtocol.Tcp := by
  obtain ⟨a, _, ha⟩ := List.mem_filterMap.mp h
  unfold parsedTcp at ha
  cases hp : (UdpDnsParser.parse max_packet_size a StatsCounter.zero).1 with
  | none =>
    rw [hp] at ha
    simp at ha
  | some x =>
    rw [hp] at ha
    have ha2 : some ({ x with protocol := DnsProtocol.Tcp } : DnsMessage) = some msg := ha
    injection ha2 with ha2
    rw [← ha2]

/-- Evaluating an incremented counter map at a key. -/
theorem increment_apply (s : StatsCounter) (key k : String) :
    s.increment key k = if k = key then s k + 1 else s k := rfl

theorem parseDomainNameAux_sufficient (data : List Nat) :
    ∀ (fuel pos name : _) (jumped : Bool) (jumpCount nextPos : Nat),
      (11 - jumpCount) * (data.length + 1) + (data.length - pos) + 1 ≤ fuel →
      parseDomainNameAux data fuel pos name jumped jumpCount nextPos ≠ none := by
  intro fuel
  induction fuel with
  | zero =>
    intro pos name jumped jumpCount nextPos hle
    omega
  | succ fuel ih =>
    intro pos name jumped jumpCount nextPos hle
    unfold parseDomainNameAux
    by_cases hpos : pos < data.length
    · simp only [hpos, if_true]
      by_cases hptr : (byteAt data pos) &&& 0xC0 = 0xC0
      · simp only [hptr, if_true]
        by_cases hend : pos + 1 ≥ data.length
        · simp [hend]
        · simp only [hend, if_false]
          by_cases hjc : jumpCount + 1 > 10
          · simp [hjc]
          · simp only [hjc, if_false]
            apply ih
            have h1 : 11 - jumpCount = (10 - jumpCount) + 1 := by omega
            have h2 : 11 - (jumpCount + 1) = 10 - jumpCount := by omega
            rw [h1, Nat.succ_mul] at hle
            rw [h2]
            have h3 : data.length - (((byteAt data pos) &&& 0x3F) <<< 8 |||
                byteAt data (pos + 1)) ≤ data.length := Nat.sub_le _ _
            omega
      · simp only [hptr, if_false]
        by_cases hz : byteAt data pos = 0
        · simp [hz]
        · simp only [hz, if_false]
          by_cases hlen : data.length < pos + 1 + byteAt data pos
          · simp [hlen]
          · simp only [hlen, if_false]
            apply ih
            omega
    · simp [hpos]

/-- The budget `pdnFuel` used by `parse_domain_name` is never exhausted: the
source's `while` loop terminates within `12 * (len + 1)` iterations. -/
theorem parseDomainName_fuel_sufficient (data : List Nat) (offset : Nat) :
    parseDomainNameAux data (pdnFuel data) offset [] false 0 offset ≠ none := by
  apply parseDomainNameAux_sufficient
  unfold pdnFuel
  have h : data.length - offset ≤ data.length := Nat.sub_le _ _
  omega

/-- Helper: a chain of pointer positions long enough to push the jump count
past 10 makes the name-decoding loop return failure, from any starting state.
The list `p :: q :: tail` holds `2 + tail.length` linked pointer positions;
with `jc + (q :: tail).length = 11` the loop reaches `jump_count = 11` and
aborts. -/
theorem parseDomainNameAux_chain (data : List Nat) :
    ∀ (tail : List Nat) (q p jc fuel : Nat) (name : List Nat) (jumped : Bool)
      (nextPos : Nat),
      List.Chain' (ptrTo data) (p :: q :: tail) →
      jc + (q :: tail).length = 11 →
      (q :: tail).length ≤ fuel →
      parseDomainNameAux data fuel p name jumped jc nextPos = some none := by
  intro tail
  induction tail with
  | nil =>
    intro q p jc fuel name jumped nextPos hchain hjc hfuel
    obtain ⟨hlt, hbits, _⟩ := (List.chain'_cons.mp hchain).1
    simp only [List.length_cons, List.length_nil] at hjc hfuel
    obtain ⟨f, rfl⟩ : ∃ f, fuel = f + 1 := ⟨fuel - 1, by omega⟩
    unfold parseDomainNameAux
    rw [if_pos (by omega), if_pos hbits, if_neg (by omega), if_pos (by omega)]
  | cons r tail ih =>
    intro q p jc fuel name jumped nextPos hchain hjc hfuel
    obtain ⟨⟨hlt, hbits, htgt⟩, hchain'⟩ := List.chain'_cons.mp hchain
    simp only [List.length_cons] at hjc hfuel
    obtain ⟨f, rfl⟩ : ∃ f, fuel = f + 1 := ⟨fuel - 1, by omega⟩
    unfold parseDomainNameAux
    rw [if_pos (by omega), if_pos hbits, if_neg (by omega), if_neg (by omega)]
    rw [htgt]
    exact ih r q (jc + 1) f name true _ hchain'
      (by simp only [List.length_cons]; omega)
      (by simp only [List.length_cons]; omega)

/-- Helper: a self-pointer yields an arbitrarily long pointer chain. -/
theorem chain'_ptrTo_self (data : List Nat) (p : Nat) (h : ptrTo data p p) :
    ∀ n, List.Chain' (ptrTo data) (p :: List.replicate n p) := by
  intro n
  induction n with
  | zero => simp
  | succ n ih =>
    rw [List.replicate_succ, List.chain'_cons]
    exact ⟨h, ih⟩

/-- C3: for every byte slice and starting offset the name-decoding routine
terminates — its loop finishes within the explicit budget `pdnFuel data`
(first conjunct) — and any compression-pointer chain exceeding 10 hops
(11 linked pointer positions, i.e. `p :: ps` with `ps.length = 11`) makes it
return failure (`none`), in particular a pointer that targets itself. -/
theorem name_decoding_jump_bounded :
    (∀ (data : List Nat) (offset : Nat),
      parseDomainNameAux data (pdnFuel data) offset [] false 0 offset ≠ none) ∧
    (∀ (data : List Nat) (p : Nat) (ps : List Nat),
      List.Chain' (ptrTo data) (p :: ps) → ps.length = 11 →
      parse_domain_name data p = none) ∧
    (∀ (data : List Nat) (p : Nat), ptrTo data p p →
      parse_domain_name data p = none) := by
  have hchainmain : ∀ (data : List Nat) (p : Nat) (ps : List Nat),
      List.Chain' (ptrTo data) (p :: ps) → ps.length = 11 →
      parse_domain_name data p = none := by
    intro data p ps hchain hlen
    cases ps with
    | nil => simp at hlen
    | cons q tail =>
      have haux : parseDomainNameAux data (pdnFuel data) p [] false 0 p = some none := by
        apply parseDomainNameAux_chain data tail q p 0 (pdnFuel data) [] false p hchain
        · simpa using hlen
        · unfold pdnFuel
          rw [hlen]
          omega
      unfold parse_domain_name
      rw [haux]
  refine ⟨parseDomainName_fuel_sufficient, hchainmain, ?_⟩
  intro data p hp
  apply hchainmain data p (List.replicate 11 p)
  · exact chain'_ptrTo_self data p hp 11
  · simp

/-- Witness for C3: the two-byte slice `C0 00` holds a pointer at offset 0
targeting offset 0; decoding it fails (and the loop budget is not exhausted). -/
theorem name_decoding_jump_bounded_witness :
    ptrTo [0xC0, 0x00] 0 0 ∧ parse_domain_name [0xC0, 0x00] 0 = none :=
  ⟨by decide, name_decoding_jump_bounded.2.2 [0xC0, 0x00] 0 (by decide)⟩

/-- Counterexample for C4: in the slice `C0 05` the pointer at offset 0 sends
the cursor to position 5, beyond the 2-byte slice, and no zero byte terminates
the name — yet decoding succeeds with the empty name and next offset 2 instead
of returning failure. -/
theorem name_decoding_out_of_slice_counterexample :
    parse_domain_name [0xC0, 0x05] 0 = some ([], 2) ∧
      parse_domain_name [0xC0, 0x05] 0 ≠ none := by
  constructor
  · decide
  · decide

/-- C4 (amended): if during name decoding the cursor stands at a label whose
declared length would run strictly past the end of the slice, or at a
compression-pointer byte whose second byte lies outside the slice, the routine
returns failure (`none`) — stated for every loop state, hence for every point
"during" decoding, and in particular for the initial offset.  (A cursor that
merely lands at or past the end of the slice — a pointer target beyond the
slice, or labels ending exactly at the slice end without a zero byte — ends
decoding successfully instead, see the counterexample.) -/
theorem name_decoding_truncated_read_fails :
    (∀ (data : List Nat) (fuel pos : Nat) (name : List Nat) (jumped : Bool)
      (jumpCount nextPos : Nat),
      pos < data.length →
      ((byteAt data pos &&& 0xC0 = 0xC0 ∧ pos + 1 ≥ data.length) ∨
        (byteAt data pos &&& 0xC0 ≠ 0xC0 ∧ byteAt data pos ≠ 0 ∧
          data.length < pos + 1 + byteAt data pos)) →
      parseDomainNameAux data (fuel + 1) pos name jumped jumpCount nextPos =
        some none) ∧
    (∀ (data : List Nat) (offset : Nat),
      offset < data.length →
      ((byteAt data offset &&& 0xC0 = 0xC0 ∧ offset + 1 ≥ data.length) ∨
        (byteAt data offset &&& 0xC0 ≠ 0xC0 ∧ byteAt data offset ≠ 0 ∧
          data.length < offset + 1 + byteAt data offset)) →
      parse_domain_name data offset = none) := by
  have hmain : ∀ (data : List Nat) (fuel pos : Nat) (name : List Nat)
      (jumped : Bool) (jumpCount nextPos : Nat),
      pos < data.length →
      ((byteAt data pos &&& 0xC0 = 0xC0 ∧ pos + 1 ≥ data.length) ∨
        (byteAt data pos &&& 0xC0 ≠ 0xC0 ∧ byteAt data pos ≠ 0 ∧
          data.length < pos + 1 + byteAt data pos)) →
      parseDomainNameAux data (fuel + 1) pos name jumped jumpCount nextPos =
        some none := by
    intro data fuel pos name jumped jumpCount nextPos hpos hbad
    unfold parseDomainNameAux
    rw [if_pos hpos]
    rcases hbad with ⟨hbits, hend⟩ | ⟨hbits, hnz, hlen⟩
    · rw [if_pos hbits, if_pos hend]
    · rw [if_neg hbits, if_neg hnz, if_pos hlen]
  refine ⟨hmain, ?_⟩
  intro data offset hpos hbad
  have hfuel : pdnFuel data = (pdnFuel data - 1) + 1 := by
    unfold pdnFuel
    omega
  unfold parse_domain_name
  rw [hfuel, hmain data (pdnFuel data - 1) offset [] false 0 offset hpos hbad]

/-- Witness for C4's amended theorem: the slice `03 61` starts a 3-byte label
with only one byte available, so decoding fails. -/
theorem name_decoding_truncated_read_fails_witness :
    0 < ([3, 97] : List Nat).length ∧ parse_domain_name [3, 97] 0 = none :=
  ⟨by decide, name_decoding_truncated_read_fails.2 [3, 97] 0 (by decide)
    (Or.inr (by decide))⟩

/-- C8: decoding the spec's 29-byte minimal A query yields transaction id
`0x1234`, a Query, exactly one question `example.com` of record type A and
class 1, and no answers. -/
theorem minimal_a_query_decodes :
    (UdpDnsParser.parse 512 sampleQuery StatsCounter.zero).1 =
      some
        { transaction_id := 0x1234
          message_type := .Query
          questions := [{ name := strBytes "example.com", record_type := .A, cls := 1 }]
          answers := []
          timestamp := 0
          protocol := .Udp } := by
  decide

/-- C10: every `DnsMessage` returned by the Wire DNS Decoder has
`timestamp = 0`; the arrival timestamp is never taken from the wire and is left
for the caller to fill in. -/
theorem parse_timestamp_always_zero (max_packet_size : Nat) (data : List Nat)
    (stats : StatsCounter) (msg : DnsMessage)
    (h : (UdpDnsParser.parse max_packet_size data stats).1 = some msg) :
    msg.timestamp = 0 := by
  unfold UdpDnsParser.parse at h
  split at h
  · simp at h
  · split at h
    · simp at h
    · split at h
      · simp at h
      · rw [← Option.some.inj h]

/-- Witness for C10: the sample query parses and its timestamp is 0. -/
theorem parse_timestamp_always_zero_witness :
    ((UdpDnsParser.parse 512 sampleQuery StatsCounter.zero).1.map
      DnsMessage.timestamp) = some 0 := by
  cases hm : (UdpDnsParser.parse 512 sampleQuery StatsCounter.zero).1 with
  | none => exact absurd hm (by decide)
  | some m =>
    show some m.timestamp = some 0
    rw [parse_timestamp_always_zero 512 sampleQuery StatsCounter.zero m hm]

/-- Counterexample for C1: the 12-byte all-zero header (`qdcount = 0`,
`ancount = 0`, valid size) is not rejected: `parse` returns a `DnsMessage`
with no questions and no answers instead of `None`. -/
theorem parse_empty_message_counterexample :
    ((UdpDnsParser.parse 512 (List.replicate 12 0) StatsCounter.zero).1.map
      (fun m => (m.questions, m.answers))) = some ([], []) ∧
    (UdpDnsParser.parse 512 (List.replicate 12 0) StatsCounter.zero).1 ≠ none :=
  ⟨by decide, by decide⟩

/-- C1 (amended): the Wire DNS Decoder accepts a header whose `qdcount` and
`ancount` are both 0 (given `12 ≤ len ≤ max_packet_size`), returning a
`DnsMessage` with empty question and answer lists rather than rejecting it —
a returned `DnsMessage` may therefore have no questions and no answers — and
no parse failure is counted: the `dns.udp.invalid_size`,
`dns.udp.parse_question_failed`, `dns.udp.parse_failed` and
`dns.udp.parse_answer_failed` counters are all left unchanged. -/
theorem parse_accepts_header_with_zero_counts (max_packet_size : Nat)
    (data : List Nat) (stats : StatsCounter)
    (h12 : 12 ≤ data.length) (hmax : data.length ≤ max_packet_size)
    (h4 : byteAt data 4 = 0) (h5 : byteAt data 5 = 0)
    (h6 : byteAt data 6 = 0) (h7 : byteAt data 7 = 0) :
    ((UdpDnsParser.parse max_packet_size data stats).1.map
      (fun m => (m.questions, m.answers))) = some ([], []) ∧
    (UdpDnsParser.parse max_packet_size data stats).2 "dns.udp.invalid_size" =
      stats "dns.udp.invalid_size" ∧
    (UdpDnsParser.parse max_packet_size data stats).2
        "dns.udp.parse_question_failed" =
      stats "dns.udp.parse_question_failed" ∧
    (UdpDnsParser.parse max_packet_size data stats).2 "dns.udp.parse_failed" =
      stats "dns.udp.parse_failed" ∧
    (UdpDnsParser.parse max_packet_size data stats).2
        "dns.udp.parse_answer_failed" =
      stats "dns.udp.parse_answer_failed" := by
  have hq : be16 data 4 = 0 := by simp [be16, h4, h5]
  have ha : be16 data 6 = 0 := by simp [be16, h6, h7]
  refine ⟨?_, ?_, ?_, ?_, ?_⟩ <;>
  · unfold UdpDnsParser.parse
    rw [if_neg (by omega), hq, ha]
    simp only [parseQuestions, parseAnswers]
    rw [if_neg (by simp)]
    simp only [increment_apply]
    split <;> simp

/-- Witness for C1's amended theorem at the all-zero 12-byte header: the
empty message is returned and (for example) the `dns.udp.parse_failed`
counter stays at its old value. -/
theorem parse_accepts_header_with_zero_counts_witness :
    12 ≤ (List.replicate 12 0 : List Nat).length ∧
    ((UdpDnsParser.parse 64 (List.replicate 12 0) StatsCounter.zero).1.map
      (fun m => (m.questions, m.answers))) = some ([], []) ∧
    (UdpDnsParser.parse 64 (List.replicate 12 0) StatsCounter.zero).2
        "dns.udp.parse_failed" =
      StatsCounter.zero "dns.udp.parse_failed" :=
  ⟨by decide,
   (parse_accepts_header_with_zero_counts 64 (List.replicate 12 0)
     StatsCounter.zero (by decide) (by decide) (by decide) (by decide)
     (by decide) (by decide)).1,
   (parse_accepts_header_with_zero_counts 64 (List.replicate 12 0)
     StatsCounter.zero (by decide) (by decide) (by decide) (by decide)
     (by decide) (by decide)).2.2.2.1⟩

/-- C5: error handling of the Wire DNS Decoder.  If the question loop fails,
`parse` returns `None` and counts `dns.udp.parse_question_failed` (first
conjunct).  If the question loop succeeds with at least one question and the
answer loop hits a failure, `parse` returns the message with all parsed
questions and the answers collected before the failure, and increments
`dns.udp.parse_answer_failed` (second conjunct). -/
theorem parse_partial_success :
    (∀ (max_packet_size : Nat) (data : List Nat) (stats : StatsCounter),
      ¬(data.length < 12 ∨ data.length > max_packet_size) →
      parseQuestions data (be16 data 4) 12 = none →
      (UdpDnsParser.parse max_packet_size data stats).1 = none ∧
      (UdpDnsParser.parse max_packet_size data stats).2 =
        stats.increment "dns.udp.parse_question_failed") ∧
    (∀ (max_packet_size : Nat) (data : List Nat) (stats : StatsCounter)
      (qs : List DnsQuestion) (off : Nat),
      ¬(data.length < 12 ∨ data.length > max_packet_size) →
      parseQuestions data (be16 data 4) 12 = some (qs, off) →
      qs ≠ [] →
      (parseAnswers data (be16 data 6) off).2 = true →
      (UdpDnsParser.parse max_packet_size data stats).1 =
        some
          { transaction_id := be16 data 0
            message_type :=
              if be16 data 2 &&& 0x8000 ≠ 0 then DnsMessageType.Response
              else DnsMessageType.Query
            questions := qs
            answers := (parseAnswers data (be16 data 6) off).1
            timestamp := 0
            protocol := DnsProtocol.Udp } ∧
      (UdpDnsParser.parse max_packet_size data stats).2
          "dns.udp.parse_answer_failed" =
        stats "dns.udp.parse_answer_failed" + 1) := by
  constructor
  · intro max_packet_size data stats hsize hq
    unfold UdpDnsParser.parse
    rw [if_neg hsize, hq]
    exact ⟨rfl, rfl⟩
  · intro max_packet_size data stats qs off hsize hq hne hfail
    have hcond : ¬((parseAnswers data (be16 data 6) off).2 = true ∧
        qs.isEmpty = true) := by
      rintro ⟨-, hb⟩
      exact hne (List.isEmpty_iff.mp hb)
    unfold UdpDnsParser.parse
    rw [if_neg hsize, hq]
    dsimp only
    rw [if_neg hcond, if_pos hfail]
    refine ⟨rfl, ?_⟩
    simp only [increment_apply]
    split
    · simp [increment_apply]
    · simp [increment_apply]

/-- Witness for C5 at `samplePartial` (one question, truncated answer):
the message keeps the question and the answer-failure counter reads 1. -/
theorem parse_partial_success_witness :
    (parseAnswers samplePartial (be16 samplePartial 6) 29).2 = true ∧
    (UdpDnsParser.parse 512 samplePartial StatsCounter.zero).1 =
      some
        { transaction_id := be16 samplePartial 0
          message_type :=
            if be16 samplePartial 2 &&& 0x8000 ≠ 0 then DnsMessageType.Response
            else DnsMessageType.Query
          questions := [{ name := strBytes "example.com", record_type := .A, cls := 1 }]
          answers := (parseAnswers samplePartial (be16 samplePartial 6) 29).1
          timestamp := 0
          protocol := DnsProtocol.Udp } ∧
    (UdpDnsParser.parse 512 samplePartial StatsCounter.zero).2
        "dns.udp.parse_answer_failed" =
      StatsCounter.zero "dns.udp.parse_answer_failed" + 1 := by
  have h := parse_partial_success.2 512 samplePartial StatsCounter.zero
    [{ name := strBytes "example.com", record_type := .A, cls := 1 }] 29
    (by decide) (by decide) (by decide) (by decide)
  exact ⟨by decide, h.1, h.2⟩

/-- C7: a segment whose append pushes the session's reassembly buffer past
`max_packet_size` makes `process_tcp_segment` return no messages, increment
`dns.tcp.buffer_overflow`, and keep the session in the table with a cleared
buffer (and refreshed `last_seen`).  The buffer before the append is the
stored one for an existing flow and empty for a freshly created one. -/
theorem tcp_buffer_overflow_clears (p : TcpDnsParser)
    (src_ip dst_ip src_port dst_port : Nat) (data : List Nat)
    (stats : StatsCounter)
    (hover :
      (match lookupSession p.tcp_sessions (src_ip, dst_ip, src_port, dst_port) with
       | some session => session.buffer.length
       | none => 0) + data.length > p.max_packet_size) :
    (p.process_tcp_segment src_ip dst_ip src_port dst_port data stats).1 = [] ∧
    (p.process_tcp_segment src_ip dst_ip src_port dst_port data stats).2.2 =
      stats.increment "dns.tcp.buffer_overflow" ∧
    lookupSession
      (p.process_tcp_segment src_ip dst_ip src_port dst_port data stats).2.1.tcp_sessions
      (src_ip, dst_ip, src_port, dst_port) =
      some { buffer := [], last_seen := p.current_time_ms } := by
  cases hlk : lookupSession p.tcp_sessions (src_ip, dst_ip, src_port, dst_port) with
  | some sess =>
    rw [hlk] at hover
    dsimp only at hover
    have hstep : sessionStep p.max_packet_size sess.buffer data stats =
        ([], [], stats.increment "dns.tcp.buffer_overflow") := by
      unfold sessionStep
      rw [if_pos (by simp only [List.length_append]; omega)]
    rw [process_existing p src_ip dst_ip src_port dst_port sess data stats hlk, hstep]
    refine ⟨rfl, rfl, ?_⟩
    show lookupSession
      (updateSession p.tcp_sessions (src_ip, dst_ip, src_port, dst_port)
        (TcpSession.mk [] p.current_time_ms)) (src_ip, dst_ip, src_port, dst_port) = _
    rw [lookupSession_update, hlk]
    rfl
  | none =>
    rw [hlk] at hover
    dsimp only at hover
    obtain ⟨X, hX, heq⟩ := process_fresh p src_ip dst_ip src_port dst_port data stats hlk
    have hstep : sessionStep p.max_packet_size [] data stats =
        ([], [], stats.increment "dns.tcp.buffer_overflow") := by
      unfold sessionStep
      rw [if_pos (by simp only [List.nil_append]; omega)]
    rw [heq, hstep]
    exact ⟨rfl, rfl, insertFresh_lookup _ _ _ _ hX⟩

/-- Witness for C7: a one-entry table with a 3-byte buffer and
`max_packet_size = 4` receives 2 more bytes: no messages, overflow counted,
session retained with a cleared buffer. -/
theorem tcp_buffer_overflow_clears_witness :
    ((TcpDnsParser.mk [((1, 1, 1, 1), TcpSession.mk [0, 0, 0] 5)] 4 2 100 5).process_tcp_segment
        1 1 1 1 [7, 7] StatsCounter.zero).1 = [] ∧
    ((TcpDnsParser.mk [((1, 1, 1, 1), TcpSession.mk [0, 0, 0] 5)] 4 2 100 5).process_tcp_segment
        1 1 1 1 [7, 7] StatsCounter.zero).2.2 =
      StatsCounter.zero.increment "dns.tcp.buffer_overflow" ∧
    lookupSession
      ((TcpDnsParser.mk [((1, 1, 1, 1), TcpSession.mk [0, 0, 0] 5)] 4 2 100 5).process_tcp_segment
          1 1 1 1 [7, 7] StatsCounter.zero).2.1.tcp_sessions (1, 1, 1, 1) =
      some { buffer := [], last_seen := 5 } :=
  tcp_buffer_overflow_clears
    (TcpDnsParser.mk [((1, 1, 1, 1), TcpSession.mk [0, 0, 0] 5)] 4 2 100 5)
    1 1 1 1 [7, 7] StatsCounter.zero (by decide)

/-- C9: the DoH parser hands extracted bytes to the Wire Decoder but, unlike
the TCP, DoT and DoQ parsers, never rewrites the protocol tag of the returned
message, so a message emitted by `process_http_data` carries `Udp`, not
`Doh` — evaluated here on the sample query. -/
theorem doh_emits_udp_tag :
    ((DohParser.process_http_data 512 0 sampleQuery StatsCounter.zero).1.map
      DnsMessage.protocol) = [DnsProtocol.Udp] ∧
    DnsProtocol.Udp ≠ DnsProtocol.Doh :=
  ⟨by decide, by decide⟩

/-- C6: session-table bounds and eviction of the TCP reassembler.
First conjunct: offering `max_sessions + 1` distinct flows (at a time when a
just-created session does not instantly count as idle, `now - timeout < now`)
to a fresh reassembler leaves exactly `max_sessions` entries.  Second
conjunct: inserting a new flow into a full table none of whose entries is
idle evicts exactly one entry whose `last_seen` is minimal, then appends the
new session.  Third conjunct: if idle-eviction alone frees room, only idle
entries are dropped before the new session is appended. -/
theorem session_table_bounded_eviction :
    (∀ (mps maxS T now : Nat) (flows : List FlowKey),
      flows.Nodup → flows.length = maxS + 1 → 0 < maxS → now - T < now →
      (flows.foldl
        (fun q k =>
          (q.process_tcp_segment k.1 k.2.1 k.2.2.1 k.2.2.2 [] StatsCounter.zero).2.1)
        (TcpDnsParser.mk [] mps maxS T now)).tcp_sessions.length = maxS) ∧
    (∀ (p : TcpDnsParser) (src_ip dst_ip src_port dst_port : Nat)
      (stats : StatsCounter),
      lookupSession p.tcp_sessions (src_ip, dst_ip, src_port, dst_port) = none →
      p.tcp_sessions.length ≥ p.max_sessions →
      (∀ e ∈ p.tcp_sessions,
        p.current_time_ms - p.session_timeout_ms < e.2.last_seen) →
      p.tcp_sessions ≠ [] →
      ∃ k₀ s₀, (k₀, s₀) ∈ p.tcp_sessions ∧
        (∀ e ∈ p.tcp_sessions, s₀.last_seen ≤ e.2.last_seen) ∧
        p.process_tcp_segment src_ip dst_ip src_port dst_port [] stats =
          ([],
           TcpDnsParser.mk
             (removeSession p.tcp_sessions k₀ ++
               [((src_ip, dst_ip, src_port, dst_port),
                 TcpSession.mk [] p.current_time_ms)])
             p.max_packet_size p.max_sessions p.session_timeout_ms
             p.current_time_ms,
           stats)) ∧
    (∀ (p : TcpDnsParser) (src_ip dst_ip src_port dst_port : Nat)
      (stats : StatsCounter),
      lookupSession p.tcp_sessions (src_ip, dst_ip, src_port, dst_port) = none →
      p.tcp_sessions.length ≥ p.max_sessions →
      (p.tcp_sessions.filter
        (fun e =>
          decide (p.current_time_ms - p.session_timeout_ms < e.2.last_seen))).length <
        p.max_sessions →
      p.process_tcp_segment src_ip dst_ip src_port dst_port [] stats =
        ([],
         TcpDnsParser.mk
           (p.tcp_sessions.filter
             (fun e =>
               decide (p.current_time_ms - p.session_timeout_ms < e.2.last_seen)) ++
             [((src_ip, dst_ip, src_port, dst_port),
               TcpSession.mk [] p.current_time_ms)])
           p.max_packet_size p.max_sessions p.session_timeout_ms p.current_time_ms,
         stats)) := by
  refine ⟨?_, process_fresh_full, process_fresh_idle⟩
  intro mps maxS T now flows hnd hlen hpos htime
  have hsplit : flows.take maxS ++ flows.drop maxS = flows := List.take_append_drop _ _
  have hdlen : (flows.drop maxS).length = 1 := by
    rw [List.length_drop, hlen]
    omega
  obtain ⟨klast, hklast⟩ := List.length_eq_one.mp hdlen
  have htklen : (flows.take maxS).length = maxS := by
    rw [List.length_take, hlen]
    omega
  have hnd2 : ((flows.take maxS) ++ [klast]).Nodup := by
    rw [← hklast, hsplit]
    exact hnd
  have hnotin : klast ∉ flows.take maxS := by
    have hdisj := (List.nodup_append.mp hnd2).2.2
    intro hc
    exact hdisj hc (List.mem_singleton_self klast)
  have hfold :
      flows.foldl
        (fun (q : TcpDnsParser) (k : FlowKey) =>
          (q.process_tcp_segment k.1 k.2.1 k.2.2.1 k.2.2.2 [] StatsCounter.zero).2.1)
        (TcpDnsParser.mk [] mps maxS T now) =
      (((flows.take maxS).foldl
        (fun (q : TcpDnsParser) (k : FlowKey) =>
          (q.process_tcp_segment k.1 k.2.1 k.2.2.1 k.2.2.2 [] StatsCounter.zero).2.1)
        (TcpDnsParser.mk [] mps maxS T now)).process_tcp_segment
          klast.1 klast.2.1 klast.2.2.1 klast.2.2.2 [] StatsCounter.zero).2.1 := by
    conv_lhs => rw [← hsplit, hklast]
    rw [List.foldl_append, List.foldl_cons, List.foldl_nil]
  have hgrow := feedFlows_grow (flows.take maxS) (TcpDnsParser.mk [] mps maxS T now)
    (fun k _ => rfl) (hnd.sublist (List.take_sublist maxS flows))
    (by simp only [List.length_nil]; omega)
  rw [hfold, hgrow]
  obtain ⟨a, b, c, d⟩ := klast
  obtain ⟨k₀, s₀, hmem, hmin, heq⟩ :=
    process_fresh_full
      (TcpDnsParser.mk
        ([] ++ (flows.take maxS).map (fun k => (k, TcpSession.mk [] now)))
        mps maxS T now)
      a b c d StatsCounter.zero
      (by
        simp only [List.nil_append]
        exact lookupSession_freshMap_none _ _ _ hnotin)
      (by simp only [List.nil_append, List.length_map]; omega)
      (by
        simp only [List.nil_append]
        intro e he
        obtain ⟨k', hk', rfl⟩ := List.mem_map.mp he
        exact htime)
      (by
        simp only [List.nil_append]
        intro hc
        have := congrArg List.length hc
        simp only [List.length_map, List.length_nil, htklen] at this
        omega)
  dsimp only
  rw [heq]
  dsimp only
  simp only [List.nil_append] at hmem ⊢
  rw [List.length_append]
  have hkeys : (((flows.take maxS).map
      (fun k => (k, TcpSession.mk [] now))).map Prod.fst) = flows.take maxS := by
    rw [List.map_map]
    have hcomp : (Prod.fst ∘ fun k : FlowKey => (k, TcpSession.mk [] now)) = id := rfl
    rw [hcomp, List.map_id]
  have hrl := removeSession_length _ k₀ s₀ hmem
    (by rw [hkeys]; exact hnd.sublist (List.take_sublist maxS flows))
  simp only [List.length_map, htklen] at hrl
  simp only [List.length_singleton]
  omega

/-- Witness for C6: `max_sessions = 2`, three distinct flows offered at
`now = 1` with `timeout = 5`; the final table has exactly 2 entries. -/
theorem session_table_bounded_eviction_witness :
    ([((1 : Nat), (1 : Nat), (1 : Nat), (1 : Nat)), (2, 2, 2, 2), (3, 3, 3, 3)] :
      List FlowKey).Nodup ∧
    (([((1 : Nat), (1 : Nat), (1 : Nat), (1 : Nat)), (2, 2, 2, 2), (3, 3, 3, 3)] :
      List FlowKey).foldl
      (fun q k =>
        (q.process_tcp_segment k.1 k.2.1 k.2.2.1 k.2.2.2 [] StatsCounter.zero).2.1)
      (TcpDnsParser.mk [] 512 2 5 1)).tcp_sessions.length = 2 :=
  ⟨by decide,
   session_table_bounded_eviction.1 512 2 5 1
     [(1, 1, 1, 1), (2, 2, 2, 2), (3, 3, 3, 3)]
     (by decide) (by decide) (by decide) (by decide)⟩

/-- C2: chunking independence of the TCP reassembler.  For any way of cutting
a series of 2-byte big-endian length-prefixed well-formed DNS messages into
TCP segments of one flow, as long as the pending bytes never exceed
`max_packet_size` (`noOverflowB`), the reassembler emits exactly the decoder's
results for those messages, in order — one emitted message per input message —
and every emitted message carries `protocol = Tcp`. -/
theorem tcp_reassembly_chunking_independent :
    ∀ (mps maxS T now src_ip dst_ip src_port dst_port : Nat)
      (segs msgs : List (List Nat)) (stats : StatsCounter),
      (∀ m ∈ msgs,
        ((UdpDnsParser.parse mps m StatsCounter.zero).1).isSome = true ∧
          m.length < 65536) →
      segs.flatten = encode msgs →
      noOverflowB mps segs [] = true →
      (feedSegments src_ip dst_ip src_port dst_port segs
        (TcpDnsParser.mk [] mps maxS T now) stats).1 =
        msgs.filterMap (parsedTcp mps) ∧
      (feedSegments src_ip dst_ip src_port dst_port segs
        (TcpDnsParser.mk [] mps maxS T now) stats).1.length = msgs.length ∧
      ∀ msg ∈ (feedSegments src_ip dst_ip src_port dst_port segs
        (TcpDnsParser.mk [] mps maxS T now) stats).1,
        msg.protocol = DnsProtocol.Tcp := by
  intro mps maxS T now src_ip dst_ip src_port dst_port segs msgs stats hwf hflat hov
  have h1 : (feedSegments src_ip dst_ip src_port dst_port segs
      (TcpDnsParser.mk [] mps maxS T now) stats).1 =
      msgs.filterMap (parsedTcp mps) := by
    rw [feedSegments_fresh_start]
    exact feedBufs_exact mps segs msgs [] stats (fun m hm => (hwf m hm).2)
      (Or.inl (by simp)) (by simpa using hflat) hov
  refine ⟨h1, ?_, ?_⟩
  · rw [h1]
    exact filterMap_parsedTcp_length mps msgs (fun m hm => (hwf m hm).1)
  · intro msg hmsg
    rw [h1] at hmsg
    exact mem_filterMap_parsedTcp_protocol mps msgs msg hmsg

/-- Witness for C2 (the spec's "TCP framing split" scenario): the frame
`00 1d ++ sampleQuery` delivered as two segments, split inside the length
prefix, yields exactly the one decoded message. -/
theorem tcp_reassembly_chunking_independent_witness :
    ([[0x00], 0x1d :: sampleQuery] : List (List Nat)).flatten =
      encode [sampleQuery] ∧
    (feedSegments 10 20 30 53 [[0x00], 0x1d :: sampleQuery]
      (TcpDnsParser.mk [] 512 16 1000 1) StatsCounter.zero).1 =
      [sampleQuery].filterMap (parsedTcp 512) :=
  ⟨by decide,
   (tcp_reassembly_chunking_independent 512 16 1000 1 10 20 30 53
     [[0x00], 0x1d :: sampleQuery] [sampleQuery] StatsCounter.zero
     (by decide) (by decide) (by decide)).1⟩

end DnsSpider
